import Mathlib

/-!
Verification of the pdf-xtract PDF reader against its specification.

This file gives a shallow embedding, in Lean 4, of the parts of the Go
source that the claims under audit talk about: the `Value` graph and its
accessors, the indirect-object resolver, the classic cross-reference
table builder, the startxref locator, the header check, the PNG-Up
predictor, the CMap decoder, the metadata synthesis and the page lookup.

Conventions of the embedding:
* Go byte strings are `List Nat` (each element < 256 in well-formed data).
* Go `panic` is `Except.error (GoErr.fault msg)`; a genuine Go `error`
  return is a distinct error value; loops that the Go source does not
  bound are given an explicit fuel argument, and fuel exhaustion is the
  separate error `GoErr.outOfFuel` so that it can never be confused with
  a panic.
* The lexer, the object parser, zlib, the byte source and `encoding/xml`
  are not part of the source tree under audit; where a function under
  audit consumes their output, that output appears as an explicit
  parameter of the model (a token list, a parsed object, a decoded
  payload), never as a stub of logic that *is* in the source.
-/

set_option autoImplicit false

/-- Kinds of PDF values, mirroring the Go `ValueKind` enumeration. -/
inductive ValueKind where
  | Null | Bool | Integer | Real | String | Name | Dict | Array | Stream
  deriving DecidableEq, Repr

/-- An object pointer: object number paired with generation
(Go `objptr{id uint32, gen uint16}`). -/
structure Objptr where
  id : Nat
  gen : Nat
  deriving DecidableEq, Repr

/-- In-memory PDF objects, mirroring the dynamic `interface{}` values the
Go object parser produces (`nil`, `bool`, `int64`, `float64`, `string`,
`name`, `dict`, `array`, `stream`, `objptr`, `objdef`).  A `real` carries
its numeric payload abstractly as an integer; no claim under audit
depends on float rounding.  A `stream` carries its header dictionary and
the file offset of its payload. -/
inductive PObj where
  | null
  | bool (b : Bool)
  | int (i : Int)
  | real (x : Int)
  | str (s : List Nat)
  | name (n : String)
  | dict (d : List (String × PObj))
  | array (a : List PObj)
  | stream (hdr : List (String × PObj)) (off : Int)
  | ptr (id : Nat) (gen : Nat)
  | objdef (id : Nat) (gen : Nat) (obj : PObj)

/-- Lookup in a dictionary; a missing key yields the Go `nil` interface,
i.e. `PObj.null` (Go map indexing with a missing key). -/
def dictGet (d : List (String × PObj)) (k : String) : PObj :=
  match d.find? (fun e => e.1 = k) with
  | some e => e.2
  | none => PObj.null

/-- Presence test for a dictionary key (Go `_, ok := d[name(k)]`). -/
def dictHas (d : List (String × PObj)) (k : String) : Bool :=
  (d.find? (fun e => e.1 = k)).isSome

/-- Go `Value.Kind()`: the kind switch over the dynamic type; the
default arm (covering `objptr` and `objdef` data) is `Null`. -/
def vKind : PObj → ValueKind
  | PObj.bool _ => ValueKind.Bool
  | PObj.int _ => ValueKind.Integer
  | PObj.real _ => ValueKind.Real
  | PObj.str _ => ValueKind.String
  | PObj.name _ => ValueKind.Name
  | PObj.dict _ => ValueKind.Dict
  | PObj.array _ => ValueKind.Array
  | PObj.stream _ _ => ValueKind.Stream
  | _ => ValueKind.Null

/-- A `Value` as seen by traversal code: the object pointer it was
resolved through plus its data.  The Go struct also carries the reader
back-pointer; in this embedding the reader model is passed explicitly to
the functions that need it. -/
structure ValueM where
  ptr : Objptr
  data : PObj

/-- The zero Go `Value{}`: a PDF null with the zero object pointer. -/
def nullVM : ValueM := ⟨⟨0, 0⟩, PObj.null⟩

/-- Go `Value.IsNull()`: `v.data == nil`. -/
def isNullV (v : ValueM) : Bool :=
  match v.data with
  | PObj.null => true
  | _ => false

/-- Go `Value.Bool()`: false unless the data is a bool. -/
def boolAcc (v : ValueM) : Bool :=
  match v.data with
  | PObj.bool b => b
  | _ => false

/-- Go `Value.Int64()`: zero unless the data is an integer. -/
def int64Acc (v : ValueM) : Int :=
  match v.data with
  | PObj.int i => i
  | _ => 0

/-- Go `Value.Float64()`: the real payload, an integer converted, or
zero on mismatch. -/
def float64Acc (v : ValueM) : Int :=
  match v.data with
  | PObj.real x => x
  | PObj.int i => i
  | _ => 0

/-- Go `Value.RawString()`: empty unless the data is a string. -/
def rawStringAcc (v : ValueM) : List Nat :=
  match v.data with
  | PObj.str s => s
  | _ => []

/-- Go `Value.Name()`: empty unless the data is a name. -/
def nameAcc (v : ValueM) : String :=
  match v.data with
  | PObj.name n => n
  | _ => ""

/-- Go `Value.Len()`: zero unless the data is an array. -/
def lenAcc (v : ValueM) : Nat :=
  match v.data with
  | PObj.array a => a.length
  | _ => 0

/-- Go `Value.Keys()`: `nil` (here `none`) unless the data is a dict or
a stream; otherwise the sorted key list of the (header) dictionary. -/
def keysAcc (v : ValueM) : Option (List String) :=
  match v.data with
  | PObj.dict d => some ((d.map (fun e => e.1)).mergeSort (fun a b => a ≤ b))
  | PObj.stream hdr _ => some ((hdr.map (fun e => e.1)).mergeSort (fun a b => a ≤ b))
  | _ => none

/-- Modelled from the spec: UTF-16BE decoding of a replacement byte
string (the Go helper `utf16Decode` is not in the source tree under
audit; its unit tests pin byte-pair big-endian decoding).  Pairs are
combined big-endian into code units; a trailing odd byte is dropped. -/
def utf16Units : List Nat → List Nat
  | hi :: lo :: rest => (hi * 256 + lo) :: utf16Units rest
  | _ => []

/-- Modelled from the spec: UTF-16 code-unit decoding as done by Go
`unicode/utf16.Decode` — surrogate pairs combine, unpaired surrogates
become U+FFFD. -/
def utf16DecodeUnits : List Nat → List Nat
  | [] => []
  | [u] =>
    if (0xD800 ≤ u ∧ u ≤ 0xDBFF) ∨ (0xDC00 ≤ u ∧ u ≤ 0xDFFF) then [0xFFFD] else [u]
  | u :: v :: rest =>
    if 0xD800 ≤ u ∧ u ≤ 0xDBFF then
      if 0xDC00 ≤ v ∧ v ≤ 0xDFFF then
        (0x10000 + (u - 0xD800) * 0x400 + (v - 0xDC00)) :: utf16DecodeUnits rest
      else
        0xFFFD :: utf16DecodeUnits (v :: rest)
    else if 0xDC00 ≤ u ∧ u ≤ 0xDFFF then
      0xFFFD :: utf16DecodeUnits (v :: rest)
    else
      u :: utf16DecodeUnits (v :: rest)

/-- Modelled from the spec: the Go helper `utf16Decode` (bytes to runes
via UTF-16BE).  Missing from the source tree; pinned by its tests. -/
def utf16Decode (s : List Nat) : List Nat :=
  utf16DecodeUnits (utf16Units s)

/-- Decode one UTF-8 sequence at the head of the byte list, as Go
`utf8.DecodeRuneInString` accepts it: returns the rune and its byte
length for a strictly valid sequence (no overlong forms, no surrogates,
nothing above U+10FFFF), otherwise `none`. -/
def utf8Head : List Nat → Option (Nat × Nat)
  | [] => none
  | b0 :: rest =>
    if b0 < 0x80 then some (b0, 1)
    else if 0xC2 ≤ b0 ∧ b0 ≤ 0xDF then
      match rest with
      | b1 :: _ =>
        if 0x80 ≤ b1 ∧ b1 ≤ 0xBF then some ((b0 - 0xC0) * 0x40 + (b1 - 0x80), 2) else none
      | _ => none
    else if 0xE0 ≤ b0 ∧ b0 ≤ 0xEF then
      match rest with
      | b1 :: b2 :: _ =>
        if (0x80 ≤ b1 ∧ b1 ≤ 0xBF) ∧ (0x80 ≤ b2 ∧ b2 ≤ 0xBF) then
          let r := (b0 - 0xE0) * 0x1000 + (b1 - 0x80) * 0x40 + (b2 - 0x80)
          if 0x800 ≤ r ∧ ¬(0xD800 ≤ r ∧ r ≤ 0xDFFF) then some (r, 3) else none
        else none
      | _ => none
    else if 0xF0 ≤ b0 ∧ b0 ≤ 0xF4 then
      match rest with
      | b1 :: b2 :: b3 :: _ =>
        if (0x80 ≤ b1 ∧ b1 ≤ 0xBF) ∧ (0x80 ≤ b2 ∧ b2 ≤ 0xBF) ∧ (0x80 ≤ b3 ∧ b3 ≤ 0xBF) then
          let r := (b0 - 0xF0) * 0x40000 + (b1 - 0x80) * 0x1000 + (b2 - 0x80) * 0x40 + (b3 - 0x80)
          if 0x10000 ≤ r ∧ r ≤ 0x10FFFF then some (r, 4) else none
        else none
      | _ => none
    else none

/-- Fueled worker for `DecodeUTF8OrPreserve`; the fuel is the byte count
(each step consumes at least one byte). -/
def decodeUTF8Aux : Nat → List Nat → List Nat
  | 0, _ => []
  | _, [] => []
  | fuel + 1, b :: rest =>
    match utf8Head (b :: rest) with
    | some (r, k) => r :: decodeUTF8Aux fuel ((b :: rest).drop k)
    | none => b :: decodeUTF8Aux fuel rest

/-- Modelled from the spec: the Go helper `DecodeUTF8OrPreserve`, which
is not in the source tree under audit.  Valid UTF-8 sequences decode to
their runes; every undecodable byte is preserved as a rune with the
byte's value (pinned by its unit test: `0xFF 0xFE` gives runes
`[0xFF, 0xFE]`). -/
def DecodeUTF8OrPreserve (s : List Nat) : List Nat :=
  decodeUTF8Aux s.length s

/-- Modelled from the spec: the fixed PDFDocEncoding byte-to-rune table
is not in the source tree under audit; the spec describes it only as "a
fixed 256-rune table with some replacement-character slots for unmapped
bytes".  The model maps printable ASCII to itself (true of the real
table) and every other byte to U+FFFD; no claim under audit depends on
the non-ASCII rows. -/
def pdfDocEncoding (b : Nat) : Nat :=
  if 0x20 ≤ b ∧ b ≤ 0x7E then b else 0xFFFD

/-- Modelled from the spec: Go helper `isUTF16` — a byte-order mark
`FE FF` followed by an even number of bytes (pinned by its tests). -/
def isUTF16 (s : List Nat) : Bool :=
  match s with
  | 0xFE :: 0xFF :: rest => rest.length % 2 = 0
  | _ => false

/-- Modelled from the spec: Go helper `isPDFDocEncoded` — not UTF-16
marked and every byte maps to a non-replacement rune (pinned by its
tests). -/
def isPDFDocEncoded (s : List Nat) : Bool :=
  !isUTF16 s && s.all (fun b => pdfDocEncoding b ≠ 0xFFFD)

/-- Modelled from the spec: Go helper `pdfDocDecode` — map every byte
through the PDFDocEncoding table. -/
def pdfDocDecode (s : List Nat) : List Nat :=
  s.map pdfDocEncoding

/-- Go `Value.Text()`: empty on a non-string; otherwise the PDF "text
string" convention (PDFDocEncoding, or UTF-16BE after a BOM, or the raw
Go string's runes). -/
def textAcc (v : ValueM) : List Nat :=
  match v.data with
  | PObj.str s =>
    if isPDFDocEncoded s then pdfDocDecode s
    else if isUTF16 s then utf16Decode (s.drop 2)
    else DecodeUTF8OrPreserve s
  | _ => []

/-- Errors of the embedding: `fault` is a Go `panic`, `gerr` a returned
Go `error`, `outOfFuel` exhaustion of the explicit fuel a Go loop gets
in this model. -/
inductive GoErr where
  | fault (msg : String)
  | gerr (msg : String)
  | outOfFuel
  deriving DecidableEq, Repr

/-- A cross-reference table entry (Go `xref` struct). -/
structure Xref where
  ptr : Objptr
  inStream : Bool
  stream : Objptr
  offset : Int
  deriving DecidableEq, Repr

instance : Inhabited Xref := ⟨⟨⟨0, 0⟩, false, ⟨0, 0⟩, 0⟩⟩

/-- The reader model (Go `Reader`).  `xref` and `trailer` are the
struct's fields.  The remaining fields stand for the layers that are
not in the source tree under audit: `objAt off` is what
`newBuffer(...).readObject()` parses at file offset `off`;
`stmPairs off i` is the i-th `(objnum, reloffset)` integer pair the
lexer reads from the head of the decoded payload of the object stream
whose payload offset is `off`; `stmObjAt off pos` is the object parsed
at position `pos` of that decoded payload. -/
structure RM where
  xref : List Xref
  trailer : List (String × PObj)
  trailerptr : Objptr
  objAt : Int → PObj
  stmPairs : Int → Nat → Int × Int
  stmObjAt : Int → Int → PObj

/-- Go `Reader.Trailer()`. -/
def TrailerV (r : RM) : ValueM := ⟨r.trailerptr, PObj.dict r.trailer⟩

/-- The final wrap at the bottom of Go `resolve`: plain data kinds wrap
into a `Value` carrying the parent pointer; an `objptr` or `objdef`
falls into the default arm and panics. -/
def wrapF (parent : Objptr) : PObj → Except GoErr ValueM
  | PObj.ptr _ _ => Except.error (GoErr.fault "unexpected value type in resolve")
  | PObj.objdef _ _ _ => Except.error (GoErr.fault "unexpected value type in resolve")
  | x => Except.ok ⟨parent, x⟩

/-- Search the first `n` `(objnum, reloffset)` pairs of an object
stream's head for the requested object number (the inner pair loop of
Go `resolve`; a pair the lexer cannot read comes back as zeros through
the comma-ok assertions). -/
def pairSearch (pairs : Nat → Int × Int) (n : Nat) (id : Nat) : Option Int :=
  match (List.range n).find? (fun i => (pairs i).1 = Int.ofNat id) with
  | some i => some (pairs i).2
  | none => none

/-- Input selector for the combined resolver: `res` is a call of Go
`resolve(parent, x)`; `stm` is the `Search` loop of its in-stream
branch, holding the requested pointer and the current candidate object
stream. -/
inductive RIn where
  | res (parent : Objptr) (x : PObj)
  | stm (id : Nat) (gen : Nat) (strm : ValueM)

/-- Go `Reader.resolve` combined with the `Search` loop of its
in-stream branch (the two are mutually recursive through `Value.Key`,
which this model inlines on header dictionaries).  Fuel bounds the
recursion through indirect references and `Extends` chains, which the
Go source does not bound. -/
def resolveCore (r : RM) : Nat → RIn → Except GoErr ValueM
  | fuel, RIn.res parent x =>
    match x with
    | PObj.ptr id gen =>
      match fuel with
      | 0 => Except.error GoErr.outOfFuel
      | fuel + 1 =>
        if h : id < r.xref.length then
          let xr := r.xref.get ⟨id, h⟩
          if xr.ptr ≠ ⟨id, gen⟩ ∨ (¬xr.inStream ∧ xr.offset = 0) then Except.ok nullVM
          else if xr.inStream then do
            let strm ← resolveCore r fuel (RIn.res parent (PObj.ptr xr.stream.id xr.stream.gen))
            resolveCore r fuel (RIn.stm id gen strm)
          else
            match r.objAt xr.offset with
            | PObj.objdef did dgen obj =>
              if (⟨did, dgen⟩ : Objptr) ≠ ⟨id, gen⟩ then
                Except.error (GoErr.fault "loading: found wrong objdef pointer")
              else wrapF ⟨id, gen⟩ obj
            | _ => Except.error (GoErr.fault "loading: found non-objdef instead of objdef")
        else Except.ok nullVM
    | _ => wrapF parent x
  | fuel, RIn.stm id gen strm =>
    match fuel with
    | 0 => Except.error GoErr.outOfFuel
    | fuel + 1 =>
      match strm.data with
      | PObj.stream hdr soff => do
        let ty ← resolveCore r fuel (RIn.res strm.ptr (dictGet hdr "Type"))
        if nameAcc ty ≠ "ObjStm" then Except.error (GoErr.fault "not an object stream")
        else do
          let nV ← resolveCore r fuel (RIn.res strm.ptr (dictGet hdr "N"))
          let firstV ← resolveCore r fuel (RIn.res strm.ptr (dictGet hdr "First"))
          let first := int64Acc firstV
          if first = 0 then Except.error (GoErr.fault "missing First")
          else
            match pairSearch (r.stmPairs soff) (int64Acc nV).toNat id with
            | some off2 => wrapF ⟨id, gen⟩ (r.stmObjAt soff (first + off2))
            | none => do
              let ext ← resolveCore r fuel (RIn.res strm.ptr (dictGet hdr "Extends"))
              match ext.data with
              | PObj.stream _ _ => resolveCore r fuel (RIn.stm id gen ext)
              | _ => Except.error (GoErr.fault "cannot find object in stream")
      | _ => Except.error (GoErr.fault "not a stream")

/-- Go `Reader.resolve(parent, x)`. -/
def resolve (r : RM) (fuel : Nat) (parent : Objptr) (x : PObj) : Except GoErr ValueM :=
  resolveCore r fuel (RIn.res parent x)

/-- Go `Value.Key`: null on a receiver that is neither dict nor stream;
otherwise resolve the (header) dictionary entry. -/
def keyF (r : RM) (fuel : Nat) (v : ValueM) (k : String) : Except GoErr ValueM :=
  match v.data with
  | PObj.dict d => resolve r fuel v.ptr (dictGet d k)
  | PObj.stream hdr _ => resolve r fuel v.ptr (dictGet hdr k)
  | _ => Except.ok nullVM

/-- Go `Value.Index`: null on a non-array receiver or an out-of-bounds
index; otherwise resolve the element. -/
def indexF (r : RM) (fuel : Nat) (v : ValueM) (i : Int) : Except GoErr ValueM :=
  match v.data with
  | PObj.array a =>
    if i < 0 ∨ (a.length : Int) ≤ i then Except.ok nullVM
    else resolve r fuel v.ptr (a.getD i.toNat PObj.null)
  | _ => Except.ok nullVM

/-- Go `uint32(x)` on an `int64`: the low 32 bits. -/
def u32 (i : Int) : Nat := (i % 4294967296).toNat

/-- Go `uint16(x)` on an `int64`: the low 16 bits. -/
def u16 (i : Int) : Nat := (i % 65536).toNat

/-- Tokens as the classic xref-table reader consumes them.  The lexer
and object parser are not in the source tree under audit, so the token
stream is an input of the model; `obj` is what `buffer.readObject`
builds at that point of the stream. -/
inductive Tok where
  | int (i : Int)
  | kw (s : String)
  | obj (o : PObj)
  | eof

/-- Go `ensureLen`: grow the slice to length at least `n` (new slots
zero-valued); negative or small `n` leaves it unchanged. -/
def ensureLen (table : List Xref) (n : Int) : List Xref :=
  if n ≤ (table.length : Int) then table
  else table ++ List.replicate (n.toNat - table.length) default

/-- Go `setIfEmpty`: write `val` at index `x` only when the slot is
currently empty (zero object pointer), growing the table as needed;
negative `x` is ignored. -/
def setIfEmpty (table : List Xref) (x : Int) (val : Xref) : List Xref :=
  if x < 0 then table
  else
    let t := ensureLen table (x + 1)
    if (t.getD x.toNat default).ptr = (⟨0, 0⟩ : Objptr) then t.set x.toNat val
    else t

/-- The inner entry loop of Go `readXrefTableData`: read `n` lines of
`offset gen alloc` tokens for the subsection whose next object number is
`idx`. -/
def readXrefEntries : Nat → List Tok → List Xref → Int → Except GoErr (List Xref × List Tok)
  | 0, b, table, _ => Except.ok (table, b)
  | n + 1, b, table, idx =>
    match b with
    | Tok.int off :: Tok.int gen :: Tok.kw alloc :: b2 =>
      if alloc = "n" then
        readXrefEntries n b2 (setIfEmpty table idx ⟨⟨u32 idx, u16 gen⟩, false, ⟨0, 0⟩, off⟩) (idx + 1)
      else if alloc = "f" then
        readXrefEntries n b2 (ensureLen table (idx + 1)) (idx + 1)
      else Except.error (GoErr.gerr "malformed xref table: unexpected alloc token")
    | _ => Except.error (GoErr.gerr "malformed xref entry")

/-- Go `readXrefTableData`: read subsections (`start count` then `count`
entry lines) until the keyword `trailer`.  Fuel bounds the subsection
loop, which the Go source does not bound. -/
def readXrefTableData : Nat → List Tok → List Xref → Except GoErr (List Xref × List Tok)
  | 0, _, _ => Except.error GoErr.outOfFuel
  | fuel + 1, b, table =>
    match b with
    | Tok.kw s :: b2 =>
      if s = "trailer" then Except.ok (table, b2)
      else Except.error (GoErr.gerr "malformed xref table subsection header")
    | Tok.int start :: Tok.int count :: b2 =>
      if start < 0 ∨ count < 0 then Except.error (GoErr.gerr "malformed xref table subsection header")
      else do
        let (table2, b3) ← readXrefEntries count.toNat b2 table start
        readXrefTableData fuel b3 table2
    | _ => Except.error (GoErr.gerr "malformed xref table subsection header")

/-- Go `buffer.readObject` as the trailer parser sees it: the next
parsed object of the stream (an `obj` token), else a non-dict result. -/
def readObjectTok (b : List Tok) : PObj × List Tok :=
  match b with
  | Tok.obj o :: b2 => (o, b2)
  | _ => (PObj.null, b)

/-- Go `parseXrefTableAndTrailer`: one xref table section followed by
its trailer dictionary. -/
def parseXrefTableAndTrailer (fuel : Nat) (b : List Tok) (table : List Xref) :
    Except GoErr (List Xref × List (String × PObj) × List Tok) := do
  let (table2, b2) ← readXrefTableData fuel b table
  match readObjectTok b2 with
  | (PObj.dict d, b3) => Except.ok (table2, d, b3)
  | _ => Except.error (GoErr.gerr "xref table not followed by trailer dictionary")

/-- Inner index loop of Go `mergeXrefTables`. -/
def mergeXrefLoop (dest src : List Xref) : Nat → Nat → List Xref
  | _, 0 => dest
  | i, n + 1 =>
    let s := src.getD i default
    if s.ptr = (⟨0, 0⟩ : Objptr) then mergeXrefLoop dest src (i + 1) n
    else
      let d := dest.getD i default
      if d.ptr = (⟨0, 0⟩ : Objptr) then mergeXrefLoop (dest.set i s) src (i + 1) n
      else if d.ptr.gen ≠ 65535 ∧ s.ptr.gen ≠ 65535 then mergeXrefLoop (dest.set i s) src (i + 1) n
      else mergeXrefLoop dest src (i + 1) n

/-- Go `mergeXrefTables`: merge a stream-derived table into the table
built so far — empty destination slots take the source; two in-use
slots prefer the source; otherwise the destination is kept. -/
def mergeXrefTables (dest src : List Xref) : List Xref :=
  let dest2 := if src.length > dest.length
    then dest ++ List.replicate (src.length - dest.length) default
    else dest
  mergeXrefLoop dest2 src 0 src.length

/-- The byte-source-level oracles of the xref repair pass plus the
token streams of the file.  `tokensAt off` is the token stream the
lexer produces from file offset `off`; `rxsAt off` is the result of
`readXrefStream` on a buffer at offset `off` (that path reads stream
payloads through the external filter pipeline); `likelyAt` and `scanAt`
stand for `isLikelyObjectAt` and `scanForObjectAt`, which read raw
bytes from the byte source. -/
structure XFile where
  tokensAt : Int → List Tok
  rxsAt : Int → Option (List Xref × List (String × PObj))
  likelyAt : Int → Bool
  scanAt : Nat → Nat → Int → Int

/-- Go `validateAndRepairXrefEntries`: validate each in-use entry's
offset, repairing through a window scan when possible; returns the
repaired table with the repaired and invalid counts. -/
def validateAndRepairXrefEntries (xf : XFile) : List Xref → List Xref × Nat × Nat
  | [] => ([], 0, 0)
  | e :: rest =>
    let (rest2, rep, inv) := validateAndRepairXrefEntries xf rest
    if e.ptr = (⟨0, 0⟩ : Objptr) then (e :: rest2, rep, inv)
    else if e.offset = 0 then (e :: rest2, rep, inv)
    else if xf.likelyAt e.offset then (e :: rest2, rep, inv)
    else
      let found := xf.scanAt e.ptr.id e.ptr.gen e.offset
      if 0 ≤ found then (⟨e.ptr, e.inStream, e.stream, found⟩ :: rest2, rep + 1, inv)
      else (e :: rest2, rep, inv + 1)

/-- Go `handleTrailerXRefStm`: when the trailer names an `XRefStm`,
parse that xref stream, validate and repair its entries, reject it when
more than 30 percent of its entries stay invalid, otherwise merge it.
The Boolean result is the returned Go error, which every caller logs
and then ignores, keeping the returned table. -/
def handleTrailerXRefStm (xf : XFile) (table : List Xref) (trailer : List (String × PObj)) :
    List Xref × List (String × PObj) × Bool :=
  match dictGet trailer "XRefStm" with
  | PObj.null => (table, trailer, false)
  | PObj.int off =>
    match xf.rxsAt off with
    | none => (table, trailer, true)
    | some (srcTable0, hdr) =>
      let (srcTable, _rep, inv) := validateAndRepairXrefEntries xf srcTable0
      let total := (srcTable.filter (fun e => e.ptr ≠ (⟨0, 0⟩ : Objptr))).length
      if 0 < total ∧ inv * 100 > total * 30 then (table, trailer, true)
      else
        let table2 := mergeXrefTables table srcTable
        if dictHas hdr "Size" then (table2, trailer, false)
        else (table2, trailer, true)
  | _ => (table, trailer, true)

/-- Go `resolvePrevXrefTables`: follow the trailer's `Prev` chain,
parsing each older table section (which must start with the keyword
`xref`) into the accumulated table and handling each older trailer's
`XRefStm`.  Fuel bounds the chain, which the Go source does not bound. -/
def resolvePrevXrefTables : Nat → XFile → List (String × PObj) → List Xref →
    Except GoErr (List Xref × List (String × PObj))
  | 0, _, _, _ => Except.error GoErr.outOfFuel
  | fuel + 1, xf, trailer, table =>
    match dictGet trailer "Prev" with
    | PObj.null => Except.ok (table, trailer)
    | PObj.int off =>
      (match xf.tokensAt off with
      | Tok.kw "xref" :: b2 => do
        let (table2, trailer2, _rest) ← parseXrefTableAndTrailer fuel b2 table
        let (table3, trailer3, _e) := handleTrailerXRefStm xf table2 trailer2
        resolvePrevXrefTables fuel xf trailer3 table3
      | _ => Except.error (GoErr.gerr "xref Prev does not point to xref"))
    | _ => Except.error (GoErr.gerr "xref Prev is not integer")

/-- Go `validateTrailerSize`: trim the table to the trailer's `Size`
when the table is longer; a missing or non-integer `Size` is an error;
a negative `Size` makes the Go reslice panic. -/
def validateTrailerSize (table : List Xref) (trailer : List (String × PObj)) :
    Except GoErr (List Xref) :=
  match dictGet trailer "Size" with
  | PObj.int size =>
    if size < (table.length : Int) then
      if size < 0 then Except.error (GoErr.fault "slice bounds out of range")
      else Except.ok (table.take size.toNat)
    else Except.ok table
  | _ => Except.error (GoErr.gerr "trailer missing Size entry")

/-- The classic-table path of Go `readXrefTable` before its final
`validateTrailerSize` step: parse the section and trailer at the start
pointer, handle an `XRefStm`, then follow the `Prev` chain. -/
def readXrefTableCore (fuel : Nat) (xf : XFile) (b : List Tok) :
    Except GoErr (List Xref × List (String × PObj)) := do
  let (table, trailer, _rest) ← parseXrefTableAndTrailer fuel b []
  let (table2, trailer2, _e) := handleTrailerXRefStm xf table trailer
  resolvePrevXrefTables fuel xf trailer2 table2

/-- Go `readXrefTable`: the classic-table path, ending by trimming the
merged table to the most recent trailer's `Size`. -/
def readXrefTable (fuel : Nat) (xf : XFile) (b : List Tok) :
    Except GoErr (List Xref × List (String × PObj)) := do
  let (table, trailer) ← readXrefTableCore fuel xf b
  let table2 ← validateTrailerSize table trailer
  Except.ok (table2, trailer)

/-- Go `isWhitespace`: the six PDF whitespace bytes of ISO 32000-1. -/
def isWhitespace (b : Nat) : Bool :=
  b = 0x00 || b = 0x09 || b = 0x0A || b = 0x0C || b = 0x0D || b = 0x20

/-- Go `SkipWhitespace`: advance `j` past every PDF whitespace byte. -/
def SkipWhitespace (buf : List Nat) (j : Nat) : Nat :=
  j + ((buf.drop j).takeWhile isWhitespace).length

/-- Go `EndsWithEOL`: the last byte skipped between `start` and `e`
must be LF or CR. -/
def EndsWithEOL (buf : List Nat) (start e : Nat) : Bool :=
  if start < e then buf.getD (e - 1) 0 = 10 || buf.getD (e - 1) 0 = 13
  else false

/-- All start indices at which `kw` occurs in `buf` (the collection
pass of Go `findLastLine`, which advances one byte past each found
start, so overlapping occurrences are all collected). -/
def occIndices (buf kw : List Nat) : List Nat :=
  (List.range buf.length).filter (fun i => kw.isPrefixOf (buf.drop i))

/-- Go `findLastLine`: the last occurrence of `s` in `buf` that,
after skipping a run of PDF whitespace, passed `EndsWithEOL`; `-1`
when no occurrence qualifies. -/
def findLastLine (buf s : List Nat) : Int :=
  match (occIndices buf s).reverse.find?
      (fun i => EndsWithEOL buf (i + s.length) (SkipWhitespace buf (i + s.length))) with
  | some i => Int.ofNat i
  | none => -1

/-- The bytes of the header magic `%PDF-`. -/
def pdfMagic : List Nat := [37, 80, 68, 70, 45]

/-- Go `bytes.Index`: index of the first occurrence of `pat` in `hay`. -/
def indexOfSub (hay pat : List Nat) : Option Nat :=
  (List.range (hay.length + 1)).find? (fun i => pat.isPrefixOf (hay.drop i))

/-- Go `bytes.TrimRight` over a cutset. -/
def trimRightBytes (l cut : List Nat) : List Nat :=
  (l.reverse.dropWhile (fun b => cut.contains b)).reverse

/-- ASCII decimal digit test. -/
def isDigit (b : Nat) : Bool := 48 ≤ b ∧ b ≤ 57

/-- Numeric value of an ASCII digit run. -/
def digitsVal (l : List Nat) : Nat :=
  l.foldl (fun a b => a * 10 + (b - 48)) 0

/-- One `%d` conversion of Go `fmt.Sscanf`: skip blanks, optional
sign, at least one digit. -/
def sscanfInt (l : List Nat) : Option (Int × List Nat) :=
  let l1 := l.dropWhile (fun b => b = 32 || b = 9)
  let core := fun (l2 : List Nat) (neg : Bool) =>
    let ds := l2.takeWhile isDigit
    if ds.isEmpty then none
    else some ((if neg then -(digitsVal ds : Int) else (digitsVal ds : Int)), l2.drop ds.length)
  match l1 with
  | 45 :: rest => core rest true
  | 43 :: rest => core rest false
  | _ => core l1 false

/-- Go `fmt.Sscanf(line, "%%PDF-%d.%d", ...)`: literal magic, major,
literal dot, minor. -/
def sscanfPDFVersion (line : List Nat) : Option (Int × Int) :=
  if pdfMagic.isPrefixOf line then
    match sscanfInt (line.drop 5) with
    | some (maj, rest) =>
      (match rest with
      | 46 :: rest2 =>
        match sscanfInt rest2 with
        | some (mnr, _) => some (maj, mnr)
        | none => none
      | _ => none)
    | none => none
  else none

/-- Go `CheckHeader` over the file's bytes.  `ReadAt` of ten bytes at
offset zero yields `io.EOF` exactly when the file is shorter than ten
bytes; on a full read the local `err` is nil.  The paths that the Go
source ends with a bare `return err` (magic not found, trimmed line
losing the magic, unsupported version) therefore return that stale
value: `none` — success — whenever the initial read filled the buffer. -/
def CheckHeader (file : List Nat) : Option GoErr :=
  let n := min 10 file.length
  let readErr : Option GoErr := if n < 10 then some (GoErr.gerr "io.EOF") else none
  if n = 0 then some (GoErr.gerr "not a PDF file: empty")
  else
    let buf := file.take n
    match indexOfSub buf pdfMagic with
    | none => readErr
    | some p =>
      let lineBuf := buf.drop p
      let lineEnd :=
        match lineBuf.findIdx? (fun b => b = 13 || b = 10) with
        | some k => k
        | none => lineBuf.length
      let line := trimRightBytes (lineBuf.take lineEnd) [32, 9, 0]
      if pdfMagic.isPrefixOf line then
        match sscanfPDFVersion line with
        | none => some (GoErr.gerr "not a PDF file: malformed version")
        | some (maj, mnr) =>
          if (maj = 1 ∧ 0 ≤ mnr ∧ mnr ≤ 7) ∨ (maj = 2 ∧ mnr = 0) then none
          else readErr
      else readErr

/-- Driving Go `pngUpReader.Read` to exhaustion: each step reads one
record of `1 + c` bytes through `io.ReadFull`, demands the leading
filter tag `2`, adds the record bytewise (modulo 256) into the history
buffer, and hands out the history minus its tag byte; a clean `io.EOF`
between records ends the stream with the bytes produced so far.  Fuel
bounds the record loop; `input.length + 1` always suffices. -/
def pngUpAll (c : Nat) : Nat → List Nat → List Nat → List Nat → Except GoErr (List Nat)
  | 0, _, _, _ => Except.error GoErr.outOfFuel
  | fuel + 1, hist, input, acc =>
    if input.isEmpty then Except.ok acc
    else if input.length < 1 + c then Except.error (GoErr.gerr "unexpected EOF")
    else
      let tmp := input.take (1 + c)
      if tmp.getD 0 0 ≠ 2 then Except.error (GoErr.gerr "malformed PNG-Up encoding")
      else
        let hist2 := List.zipWith (fun a b => (a + b) % 256) hist tmp
        pngUpAll c fuel hist2 (input.drop (1 + c)) (acc ++ hist2.drop 1)

/-- The `Predictor 12` arm of Go `applyFilter` followed by reading the
resulting `pngUpReader` to exhaustion: the history starts as `1 +
Columns` zero bytes. -/
def pngUpReadAll (c : Nat) (input : List Nat) : Except GoErr (List Nat) :=
  pngUpAll c (input.length + 1) (List.replicate (1 + c) 0) input []

/-- A codespace range (Go `byteRange`). -/
structure ByteRange where
  low : List Nat
  high : List Nat

/-- A bfchar mapping (Go `bfchar`). -/
structure Bfchar where
  orig : List Nat
  repl : List Nat

/-- A bfrange mapping (Go `bfrange`); the destination is a direct
parsed object (a string or an array of strings as the CMap interpreter
builds them). -/
structure Bfrange where
  lo : List Nat
  hi : List Nat
  dst : PObj

/-- A CMap (Go `cmap`): codespace ranges indexed by code width 1..4,
bfchar and bfrange mappings. -/
structure Cmap where
  space : List (List ByteRange)
  bfchar : List Bfchar
  bfrange : List Bfrange

/-- Go string comparison `<=` on byte strings: lexicographic, a proper
prefix sorting first. -/
def lexLe : List Nat → List Nat → Bool
  | [], _ => true
  | _ :: _, [] => false
  | a :: as_, b :: bs =>
    if a < b then true
    else if b < a then false
    else lexLe as_ bs

/-- Membership of a code in one width class of codespace ranges. -/
def spaceHit (rs : List ByteRange) (code : List Nat) : Bool :=
  rs.any (fun sp => lexLe sp.low code && lexLe code sp.high)

/-- Go `cmap.findNextCodespace`: the shortest prefix of width 1..4
falling inside a codespace range of that width, or width 0 (the Go
loop over `n = 1..4` unrolled). -/
def findNextCodespace (m : Cmap) (raw : List Nat) : List Nat × Nat :=
  if 1 ≤ raw.length ∧ spaceHit (m.space.getD 0 []) (raw.take 1) then (raw.take 1, 1)
  else if 2 ≤ raw.length ∧ spaceHit (m.space.getD 1 []) (raw.take 2) then (raw.take 2, 2)
  else if 3 ≤ raw.length ∧ spaceHit (m.space.getD 2 []) (raw.take 3) then (raw.take 3, 3)
  else if 4 ≤ raw.length ∧ spaceHit (m.space.getD 3 []) (raw.take 4) then (raw.take 4, 4)
  else ([], 0)

/-- Go `Value.RawString` on a direct parsed object. -/
def pRawString : PObj → List Nat
  | PObj.str s => s
  | _ => []

/-- Go `resolveBfrangeWithString`: the replacement string, with its
last byte advanced by the code's offset inside the range (byte
arithmetic wraps modulo 256); advancing the last byte of an empty
replacement indexes `b[-1]` and panics. -/
def resolveBfrangeWithString (br : Bfrange) (code : List Nat) : Except GoErr (List Nat) :=
  let s := pRawString br.dst
  if br.lo ≠ code then
    match s with
    | [] => Except.error (GoErr.fault "index out of range")
    | hd :: tl =>
      let last2 := ((hd :: tl).getLastD 0 + (code.getLastD 0 + 256 - br.lo.getLastD 0)) % 256
      Except.ok (utf16Decode ((hd :: tl).dropLast ++ [last2]))
  else Except.ok (utf16Decode s)

/-- Go `resolveBfrangeWithArray`: select the element at the code's
offset inside the range; a string element UTF-16BE-decodes, anything
else (including an out-of-range index) yields no runes. -/
def resolveBfrangeWithArray (br : Bfrange) (code : List Nat) : List Nat :=
  let idx := (code.getLastD 0 + 256 - br.lo.getLastD 0) % 256
  match br.dst with
  | PObj.array a =>
    (match a.getD idx PObj.null with
    | PObj.str s => utf16Decode s
    | _ => [])
  | _ => []

/-- Go `cmap.resolveCodeMapping`: first bfchar exact match on the same
width, then the first bfrange containing the code whose destination is
a string or an array (the Go loop falls through to later bfranges when
the destination has any other kind); `none` when nothing maps. -/
def resolveCodeMapping (m : Cmap) (code : List Nat) (width : Nat) :
    Except GoErr (Option (List Nat)) :=
  match m.bfchar.find? (fun bc => bc.orig.length = width && bc.orig = code) with
  | some bc => Except.ok (some (utf16Decode bc.repl))
  | none =>
    match m.bfrange.find? (fun br => br.lo.length = width && lexLe br.lo code && lexLe code br.hi
        && (vKind br.dst = ValueKind.String || vKind br.dst = ValueKind.Array)) with
    | some br =>
      (match br.dst with
      | PObj.str _ =>
        match resolveBfrangeWithString br code with
        | Except.ok rs => Except.ok (some rs)
        | Except.error e => Except.error e
      | PObj.array _ => Except.ok (some (resolveBfrangeWithArray br code))
      | _ => Except.ok none)
    | none => Except.ok none

/-- Fueled worker for Go `cmap.Decode`; the fuel is the byte count of
the input (each step consumes at least one byte). -/
def cmapDecodeAux (m : Cmap) : Nat → List Nat → Except GoErr (List Nat)
  | _, [] => Except.ok []
  | 0, _ :: _ => Except.error GoErr.outOfFuel
  | fuel + 1, b :: rest => do
    let raw := b :: rest
    let (code, width) := findNextCodespace m raw
    if width = 0 then do
      let tail ← cmapDecodeAux m fuel rest
      Except.ok (DecodeUTF8OrPreserve (raw.take 1) ++ tail)
    else do
      let res ← resolveCodeMapping m code width
      match res with
      | some rs => do
        let tail ← cmapDecodeAux m fuel (raw.drop width)
        Except.ok (rs ++ tail)
      | none => do
        let tail ← cmapDecodeAux m fuel (raw.drop width)
        Except.ok (DecodeUTF8OrPreserve code ++ tail)

/-- Go `cmap.Decode`: translate raw codes to runes through the
codespace, bfchar and bfrange rules, preserving unmapped bytes. -/
def cmapDecode (m : Cmap) (raw : List Nat) : Except GoErr (List Nat) :=
  cmapDecodeAux m raw.length raw

/-- The unified metadata record (Go `Meta`); field values are rune
lists. -/
structure Meta where
  Title : List Nat
  Author : List Nat
  Subject : List Nat
  Keywords : List Nat
  Creator : List Nat
  Producer : List Nat
  CreationDate : List Nat
  ModDate : List Nat

/-- The fields extracted from the XMP stream (Go `xmpFields`). -/
structure XmpFields where
  Title : List Nat
  Creator : List Nat
  Subject : List Nat
  Keywords : List Nat
  CreatorTool : List Nat
  Producer : List Nat
  CreateDate : List Nat
  ModifyDate : List Nat

/-- Whitespace as Go `strings.TrimSpace` trims it (the ASCII rows plus
NEL and NBSP of the Unicode space class; the claims only exercise the
ASCII rows). -/
def isUniSpace (b : Nat) : Bool :=
  b = 9 || b = 10 || b = 11 || b = 12 || b = 13 || b = 32 || b = 0x85 || b = 0xA0

/-- Go `strings.TrimSpace`. -/
def goTrimSpace (l : List Nat) : List Nat :=
  ((l.dropWhile isUniSpace).reverse.dropWhile isUniSpace).reverse

/-- Go `prefer`: `a` when non-empty after trimming, else `b`. -/
def prefer (a b : List Nat) : List Nat :=
  if goTrimSpace a ≠ [] then a else b

/-- Go `Reader.InfoDict`: the trailer's `Info` value. -/
def InfoDict (r : RM) (fuel : Nat) : Except GoErr ValueM :=
  keyF r fuel (TrailerV r) "Info"

/-- Go `Reader.readInfo`: the eight text fields of the `/Info`
dictionary. -/
def readInfo (r : RM) (fuel : Nat) : Except GoErr Meta := do
  let info ← InfoDict r fuel
  let t ← keyF r fuel info "Title"
  let a ← keyF r fuel info "Author"
  let s ← keyF r fuel info "Subject"
  let k ← keyF r fuel info "Keywords"
  let c ← keyF r fuel info "Creator"
  let p ← keyF r fuel info "Producer"
  let cd ← keyF r fuel info "CreationDate"
  let md ← keyF r fuel info "ModDate"
  Except.ok ⟨textAcc t, textAcc a, textAcc s, textAcc k, textAcc c, textAcc p, textAcc cd, textAcc md⟩

/-- The per-field synthesis of Go `Reader.Metadata`: every field
prefers the XMP-derived value over the `/Info` value. -/
def MetadataSynth (xf : XmpFields) (info : Meta) : Meta :=
  ⟨prefer xf.Title info.Title,
   prefer xf.Creator info.Author,
   prefer xf.Subject info.Subject,
   prefer xf.Keywords info.Keywords,
   prefer xf.CreatorTool info.Creator,
   prefer xf.Producer info.Producer,
   prefer xf.CreateDate info.CreationDate,
   prefer xf.ModifyDate info.ModDate⟩

/-- Go `Reader.Metadata`: read `/Info`, then overlay the XMP fields.
The parameter `xf` is the result of `readXMP` followed by
`parseXMPWithXML` or `parseXMPFallback` (stream decoding and
`encoding/xml` are external to the fragment under audit); when no XMP
stream exists `xf` is the zero value. -/
def Metadata (r : RM) (fuel : Nat) (xf : XmpFields) : Except GoErr Meta := do
  let info ← readInfo r fuel
  Except.ok (MetadataSynth xf info)

/-- The access-permission booleans (Go `accessPerm`). -/
structure AccessPerm where
  canPrint : Bool
  canModify : Bool
  extractContent : Bool
  modifyAnnotations : Bool
  fillInForm : Bool
  extractAccessibility : Bool
  assembleDocument : Bool
  canPrintFaithful : Bool
  deriving DecidableEq, Repr

/-- Go `Reader.accessPermissions`: everything allowed without an
`Encrypt` dictionary; otherwise bit tests on `uint32(Encrypt.P)`, with
fill-in-form also granted by the annotate bit and faithful print also
granted by the print bit. -/
def accessPermissions (r : RM) (fuel : Nat) : Except GoErr AccessPerm := do
  let enc ← keyF r fuel (TrailerV r) "Encrypt"
  if vKind enc.data = ValueKind.Null then
    Except.ok ⟨true, true, true, true, true, true, true, true⟩
  else do
    let pV ← keyF r fuel enc "P"
    let p := u32 (int64Acc pV)
    let canPrint := p &&& (1 <<< 2) != 0
    let canModify := p &&& (1 <<< 3) != 0
    let extractContent := p &&& (1 <<< 4) != 0
    let modifyAnnotations := p &&& (1 <<< 5) != 0
    let fillInForm := (p &&& (1 <<< 8) != 0) || modifyAnnotations
    let extractAccessibility := p &&& (1 <<< 9) != 0
    let assembleDocument := p &&& (1 <<< 10) != 0
    let canPrintFaithful := (p &&& (1 <<< 11) != 0) || canPrint
    Except.ok ⟨canPrint, canModify, extractContent, modifyAnnotations, fillInForm,
      extractAccessibility, assembleDocument, canPrintFaithful⟩

/-- Outcome of one pass over a `Kids` array in Go `Reader.Page`:
descend into a subtree (`continue Search`), return a found leaf, or
fall out of the loop. -/
inductive KidRes where
  | descend (kid : ValueM) (num : Int)
  | found (kid : ValueM)
  | exhausted

/-- The inner `Kids` loop of Go `Reader.Page`: starting at index `i`
with `rem` iterations left, walk the kids, descending into the subtree
containing page index `num`, counting leaf pages down, or exhausting
the array. -/
def kidsLoop (r : RM) (rfuel : Nat) (kids : ValueM) : Nat → Nat → Int → Except GoErr KidRes
  | _, 0, _ => Except.ok KidRes.exhausted
  | i, rem + 1, num => do
    let kid ← indexF r rfuel kids (i : Int)
    let ty1 ← keyF r rfuel kid "Type"
    if nameAcc ty1 = "Pages" then do
      let cV ← keyF r rfuel kid "Count"
      let c := int64Acc cV
      if num < c then Except.ok (KidRes.descend kid num)
      else kidsLoop r rfuel kids (i + 1) rem (num - c)
    else do
      let ty2 ← keyF r rfuel kid "Type"
      if nameAcc ty2 = "Page" then
        if num = 0 then Except.ok (KidRes.found kid)
        else kidsLoop r rfuel kids (i + 1) rem (num - 1)
      else kidsLoop r rfuel kids (i + 1) rem num

/-- The `Search` loop of Go `Reader.Page`: while the current node has
`Type /Pages`, give up when its `Count` is below the remaining index,
else walk its kids.  Falling out of the kid loop, or a node that is
not a `Pages` dictionary, yields the zero `Page`.  Fuel bounds the
descent, which the Go source does not bound. -/
def pageLoop (r : RM) (rfuel : Nat) : Nat → ValueM → Int → Except GoErr ValueM
  | 0, _, _ => Except.error GoErr.outOfFuel
  | lfuel + 1, page, num => do
    let ty ← keyF r rfuel page "Type"
    if nameAcc ty = "Pages" then do
      let cV ← keyF r rfuel page "Count"
      let c := int64Acc cV
      if c < num then Except.ok nullVM
      else do
        let kids ← keyF r rfuel page "Kids"
        let res ← kidsLoop r rfuel kids 0 (lenAcc kids) num
        match res with
        | KidRes.descend kid num2 => pageLoop r rfuel lfuel kid num2
        | KidRes.found kid => Except.ok kid
        | KidRes.exhausted => Except.ok nullVM
    else Except.ok nullVM

/-- Go `Reader.Page`: make the page number zero-indexed, fetch the root
`Pages` node, and search the tree. -/
def PageF (r : RM) (rfuel lfuel : Nat) (num : Int) : Except GoErr ValueM := do
  let root ← keyF r rfuel (TrailerV r) "Root"
  let pages ← keyF r rfuel root "Pages"
  pageLoop r rfuel lfuel pages (num - 1)

/-- Go `Reader.NumPage`: the root `Pages` node's `Count`. -/
def NumPage (r : RM) (rfuel : Nat) : Except GoErr Int := do
  let root ← keyF r rfuel (TrailerV r) "Root"
  let pages ← keyF r rfuel root "Pages"
  let cV ← keyF r rfuel pages "Count"
  Except.ok (int64Acc cV)

/-- Shape of a well-formed `/Pages` tree: leaves are `Page`
dictionaries, interior nodes are `Pages` dictionaries whose `Count` is
the number of leaves below them. -/
inductive PTree where
  | leaf
  | node (kids : List PTree)

mutual

/-- Number of leaf pages of a tree. -/
def leafCount : PTree → Nat
  | PTree.leaf => 1
  | PTree.node ks => leafCountList ks

/-- Number of leaf pages below a kid list. -/
def leafCountList : List PTree → Nat
  | [] => 0
  | t :: ts => leafCount t + leafCountList ts

end

mutual

/-- Height of a tree (leaves at height zero). -/
def ptHeight : PTree → Nat
  | PTree.leaf => 0
  | PTree.node ks => ptHeightList ks + 1

/-- Maximal height over a kid list. -/
def ptHeightList : List PTree → Nat
  | [] => 0
  | t :: ts => max (ptHeight t) (ptHeightList ts)

end

mutual

/-- Encoding of a well-formed `/Pages` tree as direct dictionaries: a
leaf is a `Page` dictionary, a node a `Pages` dictionary carrying its
leaf count and its encoded kids. -/
def encodePages : PTree → PObj
  | PTree.leaf => PObj.dict [("Type", PObj.name "Page")]
  | PTree.node ks =>
    PObj.dict [("Type", PObj.name "Pages"),
               ("Count", PObj.int (leafCountList ks : Int)),
               ("Kids", PObj.array (encodePagesList ks))]

/-- Encoding of a kid list. -/
def encodePagesList : List PTree → List PObj
  | [] => []
  | t :: ts => encodePages t :: encodePagesList ts

end

/-- A reader whose catalog holds the encoded tree as direct
dictionaries (no indirect references, so no xref is consulted). -/
def rmOfTree (t : PTree) : RM :=
  ⟨[], [("Root", PObj.dict [("Pages", encodePages t)])], ⟨0, 0⟩,
   fun _ => PObj.null, fun _ _ => (0, 0), fun _ _ => PObj.null⟩

lemma exceptBind_ok {α β ε : Type} (a : α) (f : α → Except ε β) :
    (Except.ok a >>= f) = f a := rfl

lemma landTwoPow_ne (p k : Nat) : (p &&& 2 ^ k != 0) = p.testBit k := by
  rw [Nat.and_two_pow]
  cases h : p.testBit k <;> simp [h]

/-- A reader whose trailer holds a direct `Encrypt` dictionary with the
given permission integer. -/
def encReaderP (n : Int) : RM :=
  ⟨[], [("Encrypt", PObj.dict [("P", PObj.int n)])], ⟨0, 0⟩,
   fun _ => PObj.null, fun _ _ => (0, 0), fun _ _ => PObj.null⟩

/-- Claim C9, amended.  With an `Encrypt` dictionary in the trailer the
permission booleans come from bit tests on `uint32(Encrypt.P)` with the
least significant bit numbered 1: bit 3 print, bit 4 modify, bit 5
extract, bit 6 annotate, bit 9 or bit 6 fill-form, bit 10 extract for
accessibility, bit 11 assemble, bit 12 or bit 3 print-faithful.  The
implications run from annotate to fill-form and from print to
print-faithful — the direction opposite to the claim as stated. -/
theorem claim_C9_access_permission_bits (r : RM) (fuel : Nat)
    (d : List (String × PObj)) (n : Int)
    (h1 : dictGet r.trailer "Encrypt" = PObj.dict d)
    (h2 : dictGet d "P" = PObj.int n) :
    ∃ ap : AccessPerm, accessPermissions r fuel = Except.ok ap ∧
      ap.canPrint = (u32 n).testBit 2 ∧
      ap.canModify = (u32 n).testBit 3 ∧
      ap.extractContent = (u32 n).testBit 4 ∧
      ap.modifyAnnotations = (u32 n).testBit 5 ∧
      ap.fillInForm = ((u32 n).testBit 8 || (u32 n).testBit 5) ∧
      ap.extractAccessibility = (u32 n).testBit 9 ∧
      ap.assembleDocument = (u32 n).testBit 10 ∧
      ap.canPrintFaithful = ((u32 n).testBit 11 || (u32 n).testBit 2) ∧
      (ap.modifyAnnotations = true → ap.fillInForm = true) ∧
      (ap.canPrint = true → ap.canPrintFaithful = true) := by
  have e2 : (u32 n &&& 4 != 0) = (u32 n).testBit 2 := by simpa using landTwoPow_ne (u32 n) 2
  have e3 : (u32 n &&& 8 != 0) = (u32 n).testBit 3 := by simpa using landTwoPow_ne (u32 n) 3
  have e4 : (u32 n &&& 16 != 0) = (u32 n).testBit 4 := by simpa using landTwoPow_ne (u32 n) 4
  have e5 : (u32 n &&& 32 != 0) = (u32 n).testBit 5 := by simpa using landTwoPow_ne (u32 n) 5
  have e8 : (u32 n &&& 256 != 0) = (u32 n).testBit 8 := by simpa using landTwoPow_ne (u32 n) 8
  have e9 : (u32 n &&& 512 != 0) = (u32 n).testBit 9 := by simpa using landTwoPow_ne (u32 n) 9
  have e10 : (u32 n &&& 1024 != 0) = (u32 n).testBit 10 := by
    simpa using landTwoPow_ne (u32 n) 10
  have e11 : (u32 n &&& 2048 != 0) = (u32 n).testBit 11 := by
    simpa using landTwoPow_ne (u32 n) 11
  refine ⟨⟨u32 n &&& 4 != 0, u32 n &&& 8 != 0, u32 n &&& 16 != 0,
    u32 n &&& 32 != 0, (u32 n &&& 256 != 0) || (u32 n &&& 32 != 0),
    u32 n &&& 512 != 0, u32 n &&& 1024 != 0,
    (u32 n &&& 2048 != 0) || (u32 n &&& 4 != 0)⟩,
    ?_, e2, e3, e4, e5, by rw [e8, e5], e9, e10, by rw [e11, e2], ?_, ?_⟩
  · simp [accessPermissions, keyF, TrailerV, resolve, resolveCore, h1, h2, wrapF, vKind,
      int64Acc, exceptBind_ok]
  · intro h; simp at h ⊢; exact Or.inr h
  · intro h; simp at h ⊢; exact Or.inr h

/-- Witness for claim C9's amended theorem at the concrete permission
word `-3904` (a common Standard Security value). -/
theorem claim_C9_access_permission_bits_witness :
    ∃ ap : AccessPerm, accessPermissions (encReaderP (-3904)) 1 = Except.ok ap ∧
      ap.canPrint = (u32 (-3904)).testBit 2 ∧
      ap.canModify = (u32 (-3904)).testBit 3 ∧
      ap.extractContent = (u32 (-3904)).testBit 4 ∧
      ap.modifyAnnotations = (u32 (-3904)).testBit 5 ∧
      ap.fillInForm = ((u32 (-3904)).testBit 8 || (u32 (-3904)).testBit 5) ∧
      ap.extractAccessibility = (u32 (-3904)).testBit 9 ∧
      ap.assembleDocument = (u32 (-3904)).testBit 10 ∧
      ap.canPrintFaithful = ((u32 (-3904)).testBit 11 || (u32 (-3904)).testBit 2) ∧
      (ap.modifyAnnotations = true → ap.fillInForm = true) ∧
      (ap.canPrint = true → ap.canPrintFaithful = true) :=
  claim_C9_access_permission_bits (encReaderP (-3904)) 1 [("P", PObj.int (-3904))] (-3904)
    rfl rfl

/-- Counterexample to claim C9 as stated: with `P = 256` (only bit 9
set) fill-form is granted while annotate is not, and with `P = 2048`
(only bit 12 set) faithful print is granted while print is not — so a
granted fill-form does not imply annotate, and a granted
print-faithful does not imply print. -/
theorem claim_C9_counterexample :
    (accessPermissions (encReaderP 256) 1).map (fun a => (a.fillInForm, a.modifyAnnotations))
      = Except.ok (true, false) ∧
    (accessPermissions (encReaderP 2048) 1).map (fun a => (a.canPrintFaithful, a.canPrint))
      = Except.ok (true, false) :=
  ⟨rfl, rfl⟩

/-- Claim C5 (the code bug, evaluated): `CheckHeader` accepts — returns
a nil error for — a twelve-byte file with no `%PDF-` header at all, and
a file whose header declares the unsupported version 3.0, because the
not-found and unsupported-version paths return the stale `err` of the
initial full read.  The empty file, by contrast, is rejected. -/
theorem claim_C5_checkheader_accepts_bad_headers :
    CheckHeader (List.replicate 12 88) = none ∧
    CheckHeader [37, 80, 68, 70, 45, 51, 46, 48, 10, 65, 66] = none ∧
    CheckHeader [] = some (GoErr.gerr "not a PDF file: empty") := by
  refine ⟨by decide, by decide, rfl⟩

lemma listGetD_eq_get?D (l : List Xref) (n : Nat) : l.getD n default = l[n]?.getD default := by
  simp [List.getD_eq_getElem?_getD]

lemma ensureLen_get? (table : List Xref) (n : Int) (i : Nat) (e : Xref)
    (h : table[i]? = some e) : (ensureLen table n)[i]? = some e := by
  unfold ensureLen
  split
  · exact h
  · have hi : i < table.length := by
      by_contra hge
      rw [List.getElem?_eq_none (by omega)] at h
      exact Option.noConfusion h
    rw [List.getElem?_append_left hi]
    exact h

lemma setIfEmpty_get? (table : List Xref) (x : Int) (v : Xref) (i : Nat) (e : Xref)
    (h : table[i]? = some e) (hne : e.ptr ≠ (⟨0, 0⟩ : Objptr)) :
    (setIfEmpty table x v)[i]? = some e := by
  unfold setIfEmpty
  split
  · exact h
  · have ht : (ensureLen table (x + 1))[i]? = some e := ensureLen_get? table (x + 1) i e h
    dsimp only
    split
    · next hempty =>
      have hxi : x.toNat ≠ i := by
        intro heq
        rw [heq, listGetD_eq_get?D, ht] at hempty
        exact hne hempty
      rw [List.getElem?_set_ne hxi]
      exact ht
    · exact ht

lemma readXrefEntries_get? (n : Nat) (b : List Tok) (table : List Xref) (idx : Int)
    (out : List Xref) (rest : List Tok)
    (hrun : readXrefEntries n b table idx = Except.ok (out, rest)) :
    ∀ (i : Nat) (e : Xref), table[i]? = some e → e.ptr ≠ (⟨0, 0⟩ : Objptr) →
      out[i]? = some e := by
  induction n generalizing b table idx with
  | zero =>
    intro i e h hne
    simp only [readXrefEntries] at hrun
    cases hrun
    exact h
  | succ m ih =>
    intro i e h hne
    cases b with
    | nil => simp [readXrefEntries] at hrun
    | cons a1 b1 =>
      cases a1 with
      | int off =>
        cases b1 with
        | nil => simp [readXrefEntries] at hrun
        | cons a2 b2 =>
          cases a2 with
          | int gen =>
            cases b2 with
            | nil => simp [readXrefEntries] at hrun
            | cons a3 b3 =>
              cases a3 with
              | kw alloc =>
                simp only [readXrefEntries] at hrun
                split at hrun
                · exact ih b3 _ _ hrun i e (setIfEmpty_get? table idx _ i e h hne) hne
                · split at hrun
                  · exact ih b3 _ _ hrun i e (ensureLen_get? table (idx + 1) i e h) hne
                  · exact Except.noConfusion hrun
              | int x => simp [readXrefEntries] at hrun
              | obj o => simp [readXrefEntries] at hrun
              | eof => simp [readXrefEntries] at hrun
          | kw s => simp [readXrefEntries] at hrun
          | obj o => simp [readXrefEntries] at hrun
          | eof => simp [readXrefEntries] at hrun
      | kw s => simp [readXrefEntries] at hrun
      | obj o => simp [readXrefEntries] at hrun
      | eof => simp [readXrefEntries] at hrun

/-- Claim C3.  During classic xref-table parsing a subsection entry is
written only into an empty slot: whatever table `readXrefTableData`
starts from — the empty table of the first section or the accumulated
table of a `Prev`-chain section — every already-filled slot survives to
the output unchanged. -/
theorem claim_C3_entries_never_overwrite (fuel : Nat) (b : List Tok) (table : List Xref)
    (out : List Xref) (rest : List Tok)
    (hrun : readXrefTableData fuel b table = Except.ok (out, rest)) :
    ∀ (i : Nat) (e : Xref), table[i]? = some e → e.ptr ≠ (⟨0, 0⟩ : Objptr) →
      out[i]? = some e := by
  induction fuel generalizing b table with
  | zero => exact Except.noConfusion hrun
  | succ m ih =>
    intro i e h hne
    cases b with
    | nil => simp [readXrefTableData] at hrun
    | cons a1 b1 =>
      cases a1 with
      | kw s =>
        simp only [readXrefTableData] at hrun
        split at hrun
        · cases hrun
          exact h
        · exact Except.noConfusion hrun
      | int start =>
        cases b1 with
        | nil => simp [readXrefTableData] at hrun
        | cons a2 b2 =>
          cases a2 with
          | int count =>
            simp only [readXrefTableData] at hrun
            split at hrun
            · exact Except.noConfusion hrun
            · cases hent : readXrefEntries count.toNat b2 table start with
              | error err =>
                rw [hent] at hrun
                exact Except.noConfusion hrun
              | ok p =>
                rw [hent] at hrun
                exact ih _ _ hrun i e (readXrefEntries_get? _ _ _ _ _ _ hent i e h hne) hne
          | kw s => simp [readXrefTableData] at hrun
          | obj o => simp [readXrefTableData] at hrun
          | eof => simp [readXrefTableData] at hrun
      | obj o => simp [readXrefTableData] at hrun
      | eof => simp [readXrefTableData] at hrun

/-- An in-use entry for object 1 at offset 99 that a later subsection
line tries to overwrite. -/
def c3table : List Xref := [⟨⟨1, 0⟩, false, ⟨0, 0⟩, 99⟩]

/-- A subsection `0 1` whose single line `50 0 n` targets the filled
slot 0, followed by the trailer keyword. -/
def c3toks : List Tok :=
  [Tok.int 0, Tok.int 1, Tok.int 50, Tok.int 0, Tok.kw "n", Tok.kw "trailer"]

/-- Witness for claim C3: the run leaves the filled slot untouched. -/
theorem claim_C3_entries_never_overwrite_witness :
    readXrefTableData 2 c3toks c3table = Except.ok (c3table, []) ∧
    c3table[0]? = some ⟨⟨1, 0⟩, false, ⟨0, 0⟩, 99⟩ :=
  ⟨rfl, claim_C3_entries_never_overwrite 2 c3toks c3table c3table [] rfl 0
    ⟨⟨1, 0⟩, false, ⟨0, 0⟩, 99⟩ rfl (by decide)⟩

/-- A file model with no parsable content anywhere: no `Prev` chains or
`XRefStm` parses are exercised through it. -/
def xfTriv : XFile := ⟨fun _ => [], fun _ => none, fun _ => false, fun _ _ _ => -1⟩

/-- Claim C2, amended.  After the classic path builds somewhat of a
table and reads the most recent trailer, the final step only *trims*:
the final length is the minimum of the built length and the trailer's
`Size`; a table shorter than `Size` is returned as is, so the final
length can fall short of `Size`. -/
theorem claim_C2_final_table_length (fuel : Nat) (xf : XFile) (b : List Tok)
    (tbl : List Xref) (trailer : List (String × PObj)) (s : Int)
    (hcore : readXrefTableCore fuel xf b = Except.ok (tbl, trailer))
    (hs : dictGet trailer "Size" = PObj.int s) (hnn : 0 ≤ s) :
    readXrefTable fuel xf b = Except.ok (tbl.take (min tbl.length s.toNat), trailer) ∧
    (tbl.take (min tbl.length s.toNat)).length = min tbl.length s.toNat := by
  constructor
  · simp [readXrefTable, hcore, exceptBind_ok, validateTrailerSize, hs]
    split
    · next hlt =>
      have : s.toNat < tbl.length := by omega
      rw [min_eq_right (le_of_lt this)]
      rw [if_neg (by omega : ¬ s < 0)]
      rfl
    · next hge =>
      have : tbl.length ≤ s.toNat := by omega
      rw [min_eq_left this, List.take_length]
      rfl
  · simp [List.length_take]

/-- A classic xref section of two entries whose trailer declares
`Size 1`: the table gets trimmed to one slot. -/
def c2toksW : List Tok :=
  [Tok.int 0, Tok.int 2, Tok.int 0, Tok.int 65535, Tok.kw "f",
   Tok.int 9, Tok.int 0, Tok.kw "n", Tok.kw "trailer",
   Tok.obj (PObj.dict [("Size", PObj.int 1)])]

/-- Witness for claim C2's amended theorem: a two-slot table against
`Size 1` is trimmed to length `min 2 1 = 1`. -/
theorem claim_C2_final_table_length_witness :
    readXrefTable 3 xfTriv c2toksW =
      Except.ok (([⟨⟨0, 0⟩, false, ⟨0, 0⟩, 0⟩, ⟨⟨1, 0⟩, false, ⟨0, 0⟩, 9⟩] :
        List Xref).take (min 2 1), [("Size", PObj.int 1)]) ∧
    (([⟨⟨0, 0⟩, false, ⟨0, 0⟩, 0⟩, ⟨⟨1, 0⟩, false, ⟨0, 0⟩, 9⟩] :
        List Xref).take (min 2 1)).length = min 2 1 :=
  claim_C2_final_table_length 3 xfTriv c2toksW
    [⟨⟨0, 0⟩, false, ⟨0, 0⟩, 0⟩, ⟨⟨1, 0⟩, false, ⟨0, 0⟩, 9⟩]
    [("Size", PObj.int 1)] 1 rfl rfl (by decide)

/-- A classic xref section of two entries whose trailer declares
`Size 5`: larger than the built table. -/
def c2toksCex : List Tok :=
  [Tok.int 0, Tok.int 2, Tok.int 0, Tok.int 65535, Tok.kw "f",
   Tok.int 9, Tok.int 0, Tok.kw "n", Tok.kw "trailer",
   Tok.obj (PObj.dict [("Size", PObj.int 5), ("Root", PObj.ptr 1 0)])]

/-- Counterexample to claim C2 as stated: the classic path finishes
with a two-slot table although the most recent trailer declares
`Size 5` — the final length does not equal `Size`, because the table is
only ever truncated, never padded. -/
theorem claim_C2_counterexample :
    (readXrefTable 3 xfTriv c2toksCex).map (fun p => (p.1.length, dictGet p.2 "Size"))
      = Except.ok (2, PObj.int 5) ∧ (2 : Nat) ≠ 5 :=
  ⟨rfl, by decide⟩

/-- The termination rule as the code enforces it, stated over the raw
run: the PDF-whitespace run right after position `p` is non-empty and
its LAST byte is LF or CR. -/
def specAcceptedAt (buf : List Nat) (p : Nat) : Prop :=
  (buf.drop p).takeWhile isWhitespace ≠ [] ∧
  (((buf.drop p).takeWhile isWhitespace).getLast? = some 10 ∨
   ((buf.drop p).takeWhile isWhitespace).getLast? = some 13)

lemma takeWhile_getElem? (p : Nat → Bool) (l : List Nat) (k : Nat)
    (hk : k < (l.takeWhile p).length) : l[k]? = (l.takeWhile p)[k]? := by
  induction l generalizing k with
  | nil => simp [List.takeWhile] at hk
  | cons a t ih =>
    by_cases hpa : p a
    · rw [List.takeWhile_cons_of_pos hpa] at hk ⊢
      cases k with
      | zero => simp
      | succ m =>
        simp only [List.getElem?_cons_succ]
        exact ih m (by simpa using hk)
    · rw [List.takeWhile_cons_of_neg hpa] at hk
      simp at hk

lemma endsWithEOL_skip (buf : List Nat) (p : Nat) :
    EndsWithEOL buf p (SkipWhitespace buf p) = true ↔ specAcceptedAt buf p := by
  unfold EndsWithEOL SkipWhitespace specAcceptedAt
  set run := (buf.drop p).takeWhile isWhitespace with hrun
  by_cases hne : run = []
  · simp [hne]
  · have hlen : 0 < run.length := List.length_pos.mpr hne
    rw [if_pos (by omega)]
    have hidx : p + run.length - 1 = p + (run.length - 1) := by omega
    have h1 : buf[p + (run.length - 1)]? = run[run.length - 1]? := by
      rw [← List.getElem?_drop, hrun]
      exact takeWhile_getElem? isWhitespace (buf.drop p) (run.length - 1)
        (by rw [← hrun]; omega)
    have h2 : run[run.length - 1]? = run.getLast? := (List.getLast?_eq_getElem? run).symm
    have h3 : buf.getD (p + run.length - 1) 0 = (run.getLast?).getD 0 := by
      rw [List.getD_eq_getElem?_getD, hidx, h1, h2]
    rw [h3]
    cases hg : run.getLast? with
    | none =>
      rw [List.getLast?_eq_none_iff] at hg
      exact absurd hg hne
    | some x =>
      simp only [hg, Option.getD_some]
      constructor
      · intro hx
        simp only [Bool.or_eq_true, decide_eq_true_eq] at hx
        refine ⟨hne, ?_⟩
        rcases hx with h | h
        · exact Or.inl (by rw [h])
        · exact Or.inr (by rw [h])
      · rintro ⟨-, hx | hx⟩ <;> simp only [Option.some.injEq] at hx <;> simp [hx]

lemma find?_desc {l : List Nat} {P : Nat → Bool} {i : Nat}
    (hp : l.Pairwise (fun a b => b < a)) (hf : l.find? P = some i) :
    P i = true ∧ ∀ j ∈ l, i < j → P j = false := by
  induction l with
  | nil => exact Option.noConfusion hf
  | cons a t ih =>
    rw [List.pairwise_cons] at hp
    rw [List.find?_cons] at hf
    cases hpa : P a with
    | true =>
      simp only [hpa] at hf
      cases hf
      refine ⟨hpa, ?_⟩
      intro j hj hij
      rcases List.mem_cons.mp hj with rfl | hjt
      · omega
      · exact absurd (hp.1 j hjt) (by omega)
    | false =>
      simp only [hpa] at hf
      obtain ⟨hPi, hrest⟩ := ih hp.2 hf
      refine ⟨hPi, ?_⟩
      intro j hj hij
      rcases List.mem_cons.mp hj with rfl | hjt
      · exact hpa
      · exact hrest j hjt hij

lemma occIndices_mem (buf kw : List Nat) (hk : kw ≠ []) (j : Nat) :
    j ∈ occIndices buf kw ↔ kw.isPrefixOf (buf.drop j) = true := by
  unfold occIndices
  rw [List.mem_filter, List.mem_range]
  constructor
  · exact fun h => h.2
  · intro h
    refine ⟨?_, h⟩
    by_contra hge
    rw [List.drop_eq_nil_of_le (by omega)] at h
    cases kw with
    | nil => exact hk rfl
    | cons a t => simp [List.isPrefixOf] at h

lemma occIndices_desc (buf kw : List Nat) :
    (occIndices buf kw).reverse.Pairwise (fun a b => b < a) := by
  rw [List.pairwise_reverse]
  exact (List.pairwise_lt_range buf.length).filter _

/-- Claim C4, amended.  `findLastLine` returns the LAST occurrence of
the keyword whose following run of PDF whitespace is non-empty and
whose last skipped byte is CR or LF; every later occurrence fails that
test, and a `-1` result means no occurrence passes it.  (A run that
merely contains an EOL somewhere inside — say LF then a space — is
rejected, contrary to the claim as stated.) -/
theorem claim_C4_startxref_eol_rule (buf kw : List Nat) (hk : kw ≠ []) :
    (∀ i : Nat, findLastLine buf kw = Int.ofNat i →
      kw.isPrefixOf (buf.drop i) = true ∧
      specAcceptedAt buf (i + kw.length) ∧
      ∀ j : Nat, i < j → kw.isPrefixOf (buf.drop j) = true →
        ¬ specAcceptedAt buf (j + kw.length)) ∧
    (findLastLine buf kw = -1 →
      ∀ j : Nat, kw.isPrefixOf (buf.drop j) = true →
        ¬ specAcceptedAt buf (j + kw.length)) := by
  constructor
  · intro i hi
    unfold findLastLine at hi
    cases hf : (occIndices buf kw).reverse.find?
        (fun i => EndsWithEOL buf (i + kw.length) (SkipWhitespace buf (i + kw.length))) with
    | none => rw [hf] at hi; exact absurd hi (by simp)
    | some a =>
      rw [hf] at hi
      have hi2 : Int.ofNat a = Int.ofNat i := hi
      have hai : a = i := Int.ofNat.inj hi2
      subst hai
      obtain ⟨hPa, hmax⟩ := find?_desc (occIndices_desc buf kw) hf
      have hmem : a ∈ occIndices buf kw :=
        List.mem_reverse.mp (List.mem_of_find?_eq_some hf)
      refine ⟨(occIndices_mem buf kw hk a).mp hmem,
        (endsWithEOL_skip buf (a + kw.length)).mp hPa, ?_⟩
      intro j hij hpre hacc
      have hjmem : j ∈ (occIndices buf kw).reverse :=
        List.mem_reverse.mpr ((occIndices_mem buf kw hk j).mpr hpre)
      have := hmax j hjmem hij
      rw [(endsWithEOL_skip buf (j + kw.length)).mpr hacc] at this
      exact Bool.noConfusion this
  · intro h j hpre hacc
    unfold findLastLine at h
    cases hf : (occIndices buf kw).reverse.find?
        (fun i => EndsWithEOL buf (i + kw.length) (SkipWhitespace buf (i + kw.length))) with
    | none =>
      have hjmem : j ∈ (occIndices buf kw).reverse :=
        List.mem_reverse.mpr ((occIndices_mem buf kw hk j).mpr hpre)
      have := List.find?_eq_none.mp hf j hjmem
      rw [(endsWithEOL_skip buf (j + kw.length)).mpr hacc] at this
      exact this rfl
    | some a =>
      rw [hf] at h
      exact absurd h (by simp)

/-- The bytes of the keyword `startxref`. -/
def sxBytes : List Nat := [115, 116, 97, 114, 116, 120, 114, 101, 102]

/-- The keyword followed by LF, a space, then the digit `1`: the
whitespace run is `LF SP`, which contains an EOL but does not end
with one. -/
def c4bufCex : List Nat := sxBytes ++ [10, 32, 49]

/-- Counterexample to claim C4 as stated: the occurrence at index 0 is
followed by the whitespace run `LF SP`, which contains the EOL byte
LF, yet `findLastLine` rejects it and reports no occurrence at all. -/
theorem claim_C4_counterexample :
    findLastLine c4bufCex sxBytes = -1 ∧
    sxBytes.isPrefixOf (c4bufCex.drop 0) = true ∧
    10 ∈ (c4bufCex.drop 9).takeWhile isWhitespace := by decide

/-- The keyword at index 1 followed by space, CR, LF, then a digit:
the run ends with LF, so this occurrence is accepted. -/
def c4bufW : List Nat := [120] ++ sxBytes ++ [32, 13, 10, 49]

/-- Witness for claim C4's amended theorem at a concrete accepted
occurrence. -/
theorem claim_C4_startxref_eol_rule_witness :
    sxBytes.isPrefixOf (c4bufW.drop 1) = true ∧ specAcceptedAt c4bufW (1 + sxBytes.length) :=
  have h := (claim_C4_startxref_eol_rule c4bufW sxBytes (by decide)).1 1 (by decide)
  ⟨h.1, h.2.1⟩

/-- A reader with an empty xref and trailer. -/
def rmEmpty : RM :=
  ⟨[], [], ⟨0, 0⟩, fun _ => PObj.null, fun _ _ => (0, 0), fun _ _ => PObj.null⟩

/-- Claim C1, amended.  Every accessor returns its zero value when the
receiver's kind does not match, and `Key`/`Index` return the null
`Value` when the reference is unresolvable through the xref (object
number out of range, slot pointer mismatch, or a slot that is neither
in-stream nor positioned).  What does NOT hold is the absence of
panics: resolving a reference whose xref slot points at bytes that do
not parse to a matching object definition aborts (see the
counterexample). -/
theorem claim_C1_accessor_zero_values :
    (∀ v : ValueM, vKind v.data ≠ ValueKind.Bool → boolAcc v = false) ∧
    (∀ v : ValueM, vKind v.data ≠ ValueKind.Integer → int64Acc v = 0) ∧
    (∀ v : ValueM, vKind v.data ≠ ValueKind.Real → vKind v.data ≠ ValueKind.Integer →
      float64Acc v = 0) ∧
    (∀ v : ValueM, vKind v.data ≠ ValueKind.String → rawStringAcc v = []) ∧
    (∀ v : ValueM, vKind v.data ≠ ValueKind.String → textAcc v = []) ∧
    (∀ v : ValueM, vKind v.data ≠ ValueKind.Name → nameAcc v = "") ∧
    (∀ v : ValueM, vKind v.data ≠ ValueKind.Dict → vKind v.data ≠ ValueKind.Stream →
      keysAcc v = none) ∧
    (∀ v : ValueM, vKind v.data ≠ ValueKind.Array → lenAcc v = 0) ∧
    (∀ (r : RM) (fuel : Nat) (v : ValueM) (k : String), vKind v.data ≠ ValueKind.Dict →
      vKind v.data ≠ ValueKind.Stream → keyF r fuel v k = Except.ok nullVM) ∧
    (∀ (r : RM) (fuel : Nat) (v : ValueM) (i : Int), vKind v.data ≠ ValueKind.Array →
      indexF r fuel v i = Except.ok nullVM) ∧
    (∀ (r : RM) (fuel : Nat) (parent : Objptr) (id gen : Nat),
      r.xref.length ≤ id → resolve r (fuel + 1) parent (PObj.ptr id gen) = Except.ok nullVM) ∧
    (∀ (r : RM) (fuel : Nat) (parent : Objptr) (id gen : Nat) (h : id < r.xref.length),
      ((r.xref.get ⟨id, h⟩).ptr ≠ (⟨id, gen⟩ : Objptr) ∨
       (¬(r.xref.get ⟨id, h⟩).inStream ∧ (r.xref.get ⟨id, h⟩).offset = 0)) →
      resolve r (fuel + 1) parent (PObj.ptr id gen) = Except.ok nullVM) := by
  refine ⟨?_, ?_, ?_, ?_, ?_, ?_, ?_, ?_, ?_, ?_, ?_, ?_⟩
  · intro v h; rcases v with ⟨p, d⟩; cases d <;> simp_all [vKind, boolAcc]
  · intro v h; rcases v with ⟨p, d⟩; cases d <;> simp_all [vKind, int64Acc]
  · intro v h1 h2; rcases v with ⟨p, d⟩; cases d <;> simp_all [vKind, float64Acc]
  · intro v h; rcases v with ⟨p, d⟩; cases d <;> simp_all [vKind, rawStringAcc]
  · intro v h; rcases v with ⟨p, d⟩; cases d <;> simp_all [vKind, textAcc]
  · intro v h; rcases v with ⟨p, d⟩; cases d <;> simp_all [vKind, nameAcc]
  · intro v h1 h2; rcases v with ⟨p, d⟩; cases d <;> simp_all [vKind, keysAcc]
  · intro v h; rcases v with ⟨p, d⟩; cases d <;> simp_all [vKind, lenAcc]
  · intro r fuel v k h1 h2; rcases v with ⟨p, d⟩; cases d <;> simp_all [vKind, keyF]
  · intro r fuel v i h; rcases v with ⟨p, d⟩; cases d <;> simp_all [vKind, indexF]
  · intro r fuel parent id gen h
    simp only [resolve, resolveCore]
    rw [dif_neg (by omega)]
  · intro r fuel parent id gen h hcond
    simp only [resolve, resolveCore]
    rw [dif_pos h, if_pos]
    rcases hcond with h1 | h2
    · exact Or.inl h1
    · exact Or.inr h2

/-- Witness for claim C1's amended theorem at concrete mismatching
receivers and an out-of-range reference. -/
theorem claim_C1_accessor_zero_values_witness :
    boolAcc ⟨⟨0, 0⟩, PObj.int 3⟩ = false ∧
    int64Acc ⟨⟨0, 0⟩, PObj.name "x"⟩ = 0 ∧
    keyF rmEmpty 0 ⟨⟨0, 0⟩, PObj.int 3⟩ "K" = Except.ok nullVM ∧
    resolve rmEmpty 1 ⟨0, 0⟩ (PObj.ptr 4 0) = Except.ok nullVM :=
  ⟨claim_C1_accessor_zero_values.1 ⟨⟨0, 0⟩, PObj.int 3⟩ (by decide),
   claim_C1_accessor_zero_values.2.1 ⟨⟨0, 0⟩, PObj.name "x"⟩ (by decide),
   (claim_C1_accessor_zero_values.2.2.2.2.2.2.2.2.1) rmEmpty 0 ⟨⟨0, 0⟩, PObj.int 3⟩ "K"
     (by decide) (by decide),
   (claim_C1_accessor_zero_values.2.2.2.2.2.2.2.2.2.2.1) rmEmpty 0 ⟨0, 0⟩ 4 0 (by decide)⟩

/-- A reader whose xref slot 1 is in use at offset 5, where the byte
source parses to the plain integer 7 instead of an object
definition. -/
def c1BadReader : RM :=
  ⟨[⟨⟨0, 65535⟩, false, ⟨0, 0⟩, 0⟩, ⟨⟨1, 0⟩, false, ⟨0, 0⟩, 5⟩], [], ⟨0, 0⟩,
   fun _ => PObj.int 7, fun _ _ => (0, 0), fun _ _ => PObj.null⟩

/-- A dictionary value holding an indirect reference to object 1. -/
def c1BadValue : ValueM := ⟨⟨0, 0⟩, PObj.dict [("K", PObj.ptr 1 0)]⟩

/-- Counterexample to claim C1 as stated: `Key` on a malformed PDF
panics instead of returning a null `Value` — the xref slot is valid,
but the object at its offset is not an object definition, and
`resolve` aborts (Go `panic`, modelled as `GoErr.fault`). -/
theorem claim_C1_counterexample :
    keyF c1BadReader 5 c1BadValue "K" =
      Except.error (GoErr.fault "loading: found non-objdef instead of objdef") := rfl

/-- Bytewise sum modulo 256 of two rows. -/
def addBytesMod (xs ys : List Nat) : List Nat :=
  List.zipWith (fun a b => (a + b) % 256) xs ys

/-- Spec reading of PNG-Up prediction: each output row is the running
column sum, modulo 256, of the record bytes seen so far. -/
def runningRows (prev : List Nat) : List (List Nat) → List (List Nat)
  | [] => []
  | r :: rs => addBytesMod prev r :: runningRows (addBytesMod prev r) rs

/-- Spec reading of the decoder's whole output for `Columns = c`:
the flattened running column sums, starting from zero. -/
def pngUpSpecOutput (c : Nat) (rows : List (List Nat)) : List Nat :=
  (runningRows (List.replicate c 0) rows).flatten

/-- An inflated payload of complete records: each row prefixed with the
filter tag byte `2`. -/
def pngUpFrames (rows : List (List Nat)) : List Nat :=
  (rows.map (fun r => 2 :: r)).flatten

lemma addBytesMod_length (xs ys : List Nat) (h : xs.length = ys.length) :
    (addBytesMod xs ys).length = xs.length := by
  simp [addBytesMod, h]

lemma pngUpAll_frames (c : Nat) (rows : List (List Nat)) :
    ∀ (hist acc : List Nat) (fuel : Nat), 1 ≤ c → hist.length = 1 + c →
    (∀ r ∈ rows, r.length = c) → rows.length + 1 ≤ fuel →
    pngUpAll c fuel hist (pngUpFrames rows) acc =
      Except.ok (acc ++ (runningRows (hist.drop 1) rows).flatten) := by
  induction rows with
  | nil =>
    intro hist acc fuel hc hh hr hfuel
    cases fuel with
    | zero => omega
    | succ f => simp [pngUpAll, pngUpFrames, runningRows]
  | cons r rs ih =>
    intro hist acc fuel hc hh hr hfuel
    cases fuel with
    | zero => omega
    | succ f =>
      have hrl : r.length = c := hr r (by simp)
      have hfr : pngUpFrames (r :: rs) = (2 :: r) ++ pngUpFrames rs := by
        simp [pngUpFrames]
      cases hist with
      | nil => simp at hh; omega
      | cons h0 hist1 =>
        have hh1 : hist1.length = c := by simp at hh; omega
        rw [pngUpAll, hfr]
        have hne : ¬ ((2 :: r) ++ pngUpFrames rs).isEmpty := by simp
        rw [if_neg hne]
        have hlen2 : (2 :: r).length = 1 + c := by simp [hrl]; omega
        have hlong : ¬ (((2 :: r) ++ pngUpFrames rs).length < 1 + c) := by
          simp [hrl]
          omega
        rw [if_neg hlong]
        have htake : ((2 :: r) ++ pngUpFrames rs).take (1 + c) = 2 :: r := by
          rw [← hlen2, List.take_left]
        have hdrop : ((2 :: r) ++ pngUpFrames rs).drop (1 + c) = pngUpFrames rs := by
          rw [← hlen2, List.drop_left]
        rw [htake, hdrop]
        rw [if_neg (by simp)]
        have hzip : List.zipWith (fun a b => (a + b) % 256) (h0 :: hist1) (2 :: r)
            = ((h0 + 2) % 256) :: addBytesMod hist1 r := by
          simp [addBytesMod]
        rw [hzip]
        have hlen3 : (((h0 + 2) % 256) :: addBytesMod hist1 r).length = 1 + c := by
          simp [addBytesMod_length hist1 r (by omega)]
          omega
        rw [ih (((h0 + 2) % 256) :: addBytesMod hist1 r) _ f hc hlen3
          (fun x hx => hr x (by simp [hx])) (by simpa using hfuel)]
        simp [runningRows]

lemma runningRows_flatten_length (rows : List (List Nat)) :
    ∀ prev : List Nat, (∀ r ∈ rows, r.length = prev.length) →
    (runningRows prev rows).flatten.length = rows.length * prev.length := by
  induction rows with
  | nil => intro prev h; simp [runningRows]
  | cons r rs ih =>
    intro prev h
    have hr : r.length = prev.length := h r (by simp)
    have hlen : (addBytesMod prev r).length = prev.length :=
      addBytesMod_length prev r hr.symm
    simp only [runningRows, List.flatten_cons, List.length_append, hlen]
    rw [ih (addBytesMod prev r) (fun x hx => by rw [h x (by simp [hx]), hlen])]
    simp [hlen, hr]
    ring

lemma pngUpFrames_length (rows : List (List Nat)) :
    rows.length ≤ (pngUpFrames rows).length := by
  induction rows with
  | nil => simp [pngUpFrames]
  | cons r rs ih =>
    simp only [pngUpFrames, List.map_cons, List.flatten_cons, List.length_append,
      List.length_cons] at *
    omega

/-- Claim C7.  For `Predictor 12` with `Columns = c ≥ 1` and a payload
of `n` complete records tagged `2`, reading the decoder to exhaustion
yields exactly `n * c` bytes: the running column sums modulo 256 of
the record bytes. -/
theorem claim_C7_pngup_output (c : Nat) (rows : List (List Nat)) (hc : 1 ≤ c)
    (hrows : ∀ r ∈ rows, r.length = c) :
    pngUpReadAll c (pngUpFrames rows) = Except.ok (pngUpSpecOutput c rows) ∧
    (pngUpSpecOutput c rows).length = rows.length * c := by
  constructor
  · unfold pngUpReadAll pngUpSpecOutput
    have hfl : rows.length + 1 ≤ (pngUpFrames rows).length + 1 := by
      have := pngUpFrames_length rows
      omega
    rw [pngUpAll_frames c rows (List.replicate (1 + c) 0) [] _ hc (by simp) hrows hfl]
    simp [List.drop_replicate]
  · unfold pngUpSpecOutput
    rw [runningRows_flatten_length rows (List.replicate c 0)
      (fun r hr => by simp [hrows r hr])]
    simp

/-- Witness for claim C7 at two records over two columns, with a
column sum that wraps past 255. -/
theorem claim_C7_pngup_output_witness :
    (pngUpReadAll 2 (pngUpFrames [[1, 2], [3, 255]]) =
      Except.ok (pngUpSpecOutput 2 [[1, 2], [3, 255]]) ∧
     (pngUpSpecOutput 2 [[1, 2], [3, 255]]).length = 2 * 2) ∧
    pngUpSpecOutput 2 [[1, 2], [3, 255]] = [1, 2, 4, 1] :=
  ⟨claim_C7_pngup_output 2 [[1, 2], [3, 255]] (by decide) (by decide), by decide⟩

/-- A reader whose `/Info` dictionary carries `Title (OldTitle)`. -/
def c8Reader : RM :=
  ⟨[], [("Info", PObj.dict [("Title", PObj.str [79, 108, 100, 84, 105, 116, 108, 101])])],
   ⟨0, 0⟩, fun _ => PObj.null, fun _ _ => (0, 0), fun _ _ => PObj.null⟩

/-- XMP fields whose `dc:title` parsed to `NewTitle` and nothing else. -/
def c8Xmp : XmpFields :=
  ⟨[78, 101, 119, 84, 105, 116, 108, 101], [], [], [], [], [], [], []⟩

/-- Claim C8.  Every field of the unified record takes the XMP value
whenever it is non-empty after trimming whitespace and the `/Info`
value otherwise; in particular, `/Info /Title (OldTitle)` with an XMP
`dc:title` of `NewTitle` yields the title `NewTitle`, and with no XMP
fields the title falls back to `OldTitle`. -/
theorem claim_C8_metadata_prefers_xmp :
    (∀ (xf : XmpFields) (info : Meta),
      MetadataSynth xf info =
        ⟨if goTrimSpace xf.Title ≠ [] then xf.Title else info.Title,
         if goTrimSpace xf.Creator ≠ [] then xf.Creator else info.Author,
         if goTrimSpace xf.Subject ≠ [] then xf.Subject else info.Subject,
         if goTrimSpace xf.Keywords ≠ [] then xf.Keywords else info.Keywords,
         if goTrimSpace xf.CreatorTool ≠ [] then xf.CreatorTool else info.Creator,
         if goTrimSpace xf.Producer ≠ [] then xf.Producer else info.Producer,
         if goTrimSpace xf.CreateDate ≠ [] then xf.CreateDate else info.CreationDate,
         if goTrimSpace xf.ModifyDate ≠ [] then xf.ModifyDate else info.ModDate⟩) ∧
    (Metadata c8Reader 2 c8Xmp).map (fun m => m.Title)
      = Except.ok [78, 101, 119, 84, 105, 116, 108, 101] ∧
    (Metadata c8Reader 2 ⟨[], [], [], [], [], [], [], []⟩).map (fun m => m.Title)
      = Except.ok [79, 108, 100, 84, 105, 116, 108, 101] := by
  refine ⟨fun xf info => rfl, rfl, rfl⟩

lemma encodePagesList_eq_map (ts : List PTree) : encodePagesList ts = ts.map encodePages := by
  induction ts with
  | nil => simp [encodePagesList]
  | cons t ts2 ih => simp [encodePagesList, ih]

lemma resolve_dict (r : RM) (fuel : Nat) (p : Objptr) (d : List (String × PObj)) :
    resolve r fuel p (PObj.dict d) = Except.ok ⟨p, PObj.dict d⟩ := by
  cases fuel <;> rfl

lemma encodePages_isDict (t : PTree) : ∃ d, encodePages t = PObj.dict d := by
  cases t with
  | leaf => exact ⟨_, rfl⟩
  | node ks => exact ⟨_, rfl⟩

lemma keyF_leaf_Type (r : RM) (fuel : Nat) (p : Objptr) :
    keyF r fuel ⟨p, encodePages PTree.leaf⟩ "Type" = Except.ok ⟨p, PObj.name "Page"⟩ := by
  cases fuel <;> rfl

lemma keyF_node_Type (r : RM) (fuel : Nat) (p : Objptr) (ks : List PTree) :
    keyF r fuel ⟨p, encodePages (PTree.node ks)⟩ "Type"
      = Except.ok ⟨p, PObj.name "Pages"⟩ := by
  cases fuel <;> rfl

lemma keyF_node_Count (r : RM) (fuel : Nat) (p : Objptr) (ks : List PTree) :
    keyF r fuel ⟨p, encodePages (PTree.node ks)⟩ "Count"
      = Except.ok ⟨p, PObj.int (leafCountList ks : Int)⟩ := by
  cases fuel <;> rfl

lemma keyF_node_Kids (r : RM) (fuel : Nat) (p : Objptr) (ks : List PTree) :
    keyF r fuel ⟨p, encodePages (PTree.node ks)⟩ "Kids"
      = Except.ok ⟨p, PObj.array (encodePagesList ks)⟩ := by
  cases fuel <;> rfl

lemma length_encodePagesList (ts : List PTree) : (encodePagesList ts).length = ts.length := by
  rw [encodePagesList_eq_map]; simp

lemma indexF_encoded (r : RM) (rfuel : Nat) (p : Objptr) (full : List PTree) (i : Nat)
    (h : i < full.length) :
    indexF r rfuel ⟨p, PObj.array (encodePagesList full)⟩ (i : Int) =
      Except.ok ⟨p, encodePages (full.get ⟨i, h⟩)⟩ := by
  show (if (i : Int) < 0 ∨ ((encodePagesList full).length : Int) ≤ (i : Int)
    then Except.ok nullVM
    else resolve r rfuel p ((encodePagesList full).getD (i : Int).toNat PObj.null)) = _
  rw [if_neg]
  · have hget : (encodePagesList full).getD ((i : Int)).toNat PObj.null
        = encodePages (full.get ⟨i, h⟩) := by
      rw [encodePagesList_eq_map]
      rw [List.getD_eq_getElem?_getD]
      simp [List.getElem?_map, List.getElem?_eq_getElem h]
    rw [hget]
    obtain ⟨d, hd⟩ := encodePages_isDict (full.get ⟨i, h⟩)
    rw [hd, resolve_dict]
  · rw [length_encodePagesList]
    push_neg
    omega

lemma lenAcc_encoded (p : Objptr) (full : List PTree) :
    lenAcc ⟨p, PObj.array (encodePagesList full)⟩ = full.length := by
  simp [lenAcc, length_encodePagesList]

lemma leafCountList_drop (full : List PTree) (i : Nat) (h : i < full.length) :
    leafCountList (full.drop i)
      = leafCount (full.get ⟨i, h⟩) + leafCountList (full.drop (i + 1)) := by
  rw [List.drop_eq_getElem_cons h]
  rfl

lemma ptHeight_mem (t2 : PTree) (ks : List PTree) (h : t2 ∈ ks) :
    ptHeight t2 ≤ ptHeightList ks := by
  induction ks with
  | nil => cases h
  | cons a as ih =>
    rcases List.mem_cons.mp h with rfl | hm
    · simp [ptHeightList]
    · have := ih hm
      simp only [ptHeightList]
      omega

lemma kidsLoop_neg (r : RM) (rfuel : Nat) (p : Objptr) (full : List PTree) :
    ∀ (rem i : Nat) (num : Int), i + rem = full.length → num < 0 →
    kidsLoop r rfuel ⟨p, PObj.array (encodePagesList full)⟩ i rem num
      = Except.ok KidRes.exhausted ∨
    (∃ ks2 num2, PTree.node ks2 ∈ full ∧ num2 < 0 ∧
      kidsLoop r rfuel ⟨p, PObj.array (encodePagesList full)⟩ i rem num
        = Except.ok (KidRes.descend ⟨p, encodePages (PTree.node ks2)⟩ num2)) := by
  intro rem
  induction rem with
  | zero =>
    intro i num hi hneg
    left
    rfl
  | succ m ih =>
    intro i num hi hneg
    have hlt : i < full.length := by omega
    rw [kidsLoop]
    rw [indexF_encoded r rfuel p full i hlt, exceptBind_ok]
    cases hget : full.get ⟨i, hlt⟩ with
    | leaf =>
      rw [keyF_leaf_Type, exceptBind_ok]
      rw [if_neg (by simp [nameAcc])]
      rw [exceptBind_ok]
      rw [if_pos (by simp [nameAcc])]
      rw [if_neg (by omega : ¬ num = 0)]
      exact ih (i + 1) (num - 1) (by omega) (by omega)
    | node ks2 =>
      rw [keyF_node_Type, exceptBind_ok]
      rw [if_pos (by simp [nameAcc])]
      rw [keyF_node_Count, exceptBind_ok]
      rw [if_pos (by simp [int64Acc]; omega)]
      right
      refine ⟨ks2, num, ?_, hneg, rfl⟩
      rw [← hget]
      exact List.get_mem full i hlt

lemma kidsLoop_ge (r : RM) (rfuel : Nat) (p : Objptr) (full : List PTree) :
    ∀ (rem i : Nat) (num : Int), i + rem = full.length →
    ((leafCountList (full.drop i) : Int)) ≤ num →
    kidsLoop r rfuel ⟨p, PObj.array (encodePagesList full)⟩ i rem num
      = Except.ok KidRes.exhausted := by
  intro rem
  induction rem with
  | zero =>
    intro i num hi hge
    rfl
  | succ m ih =>
    intro i num hi hge
    have hlt : i < full.length := by omega
    have hdrop := leafCountList_drop full i hlt
    rw [kidsLoop]
    rw [indexF_encoded r rfuel p full i hlt, exceptBind_ok]
    cases hget : full.get ⟨i, hlt⟩ with
    | leaf =>
      rw [keyF_leaf_Type, exceptBind_ok]
      rw [if_neg (by simp [nameAcc])]
      rw [exceptBind_ok]
      rw [if_pos (by simp [nameAcc])]
      have h1 : leafCount PTree.leaf = 1 := rfl
      rw [hget, h1] at hdrop
      rw [if_neg (by omega : ¬ num = 0)]
      exact ih (i + 1) (num - 1) (by omega) (by omega)
    | node ks2 =>
      rw [keyF_node_Type, exceptBind_ok]
      rw [if_pos (by simp [nameAcc])]
      rw [keyF_node_Count, exceptBind_ok]
      have h1 : leafCount (PTree.node ks2) = leafCountList ks2 := rfl
      rw [hget, h1] at hdrop
      rw [if_neg (by simp [int64Acc]; omega)]
      exact ih (i + 1) (num - (leafCountList ks2 : Int)) (by omega) (by omega)

lemma pageLoop_out_of_range (r : RM) (rfuel : Nat) :
    ∀ (lfuel : Nat) (t : PTree) (p : Objptr) (num : Int),
    ptHeight t < lfuel →
    (num < 0 ∨ (leafCount t : Int) ≤ num) →
    pageLoop r rfuel lfuel ⟨p, encodePages t⟩ num = Except.ok nullVM := by
  intro lfuel
  induction lfuel with
  | zero => intro t p num h _; omega
  | succ m ih =>
    intro t p num hh hrange
    cases t with
    | leaf =>
      rw [pageLoop, keyF_leaf_Type, exceptBind_ok]
      rw [if_neg (by simp [nameAcc])]
    | node ks =>
      rw [pageLoop, keyF_node_Type, exceptBind_ok]
      rw [if_pos (by simp [nameAcc])]
      rw [keyF_node_Count, exceptBind_ok]
      by_cases hc : int64Acc ⟨p, PObj.int (leafCountList ks : Int)⟩ < num
      · rw [if_pos hc]
      · rw [if_neg hc]
        rw [keyF_node_Kids, exceptBind_ok, lenAcc_encoded]
        rcases hrange with hneg | hge
        · rcases kidsLoop_neg r rfuel p ks ks.length 0 num (by omega) hneg with
            hex | ⟨ks2, num2, hmem, hneg2, heq⟩
          · rw [hex, exceptBind_ok]
          · rw [heq, exceptBind_ok]
            have hh2 : ptHeight (PTree.node ks2) < m := by
              have h1 : ptHeight (PTree.node ks2) ≤ ptHeightList ks :=
                ptHeight_mem (PTree.node ks2) ks hmem
              have h2 : ptHeightList ks + 1 < m + 1 := hh
              omega
            exact ih (PTree.node ks2) p num2 hh2 (Or.inl hneg2)
        · have hge2 : ((leafCountList (ks.drop 0) : Int)) ≤ num := by
            have h1 : ((leafCountList ks : Int)) ≤ num := hge
            simpa using h1
          rw [kidsLoop_ge r rfuel p ks ks.length 0 num (by omega) hge2, exceptBind_ok]

lemma rootV_tree (t : PTree) (rfuel : Nat) :
    keyF (rmOfTree t) rfuel (TrailerV (rmOfTree t)) "Root"
      = Except.ok ⟨⟨0, 0⟩, PObj.dict [("Pages", encodePages t)]⟩ := by
  cases rfuel <;> rfl

lemma pagesV_tree (ks : List PTree) (rfuel : Nat) :
    keyF (rmOfTree (PTree.node ks)) rfuel
        ⟨⟨0, 0⟩, PObj.dict [("Pages", encodePages (PTree.node ks))]⟩ "Pages"
      = Except.ok ⟨⟨0, 0⟩, encodePages (PTree.node ks)⟩ := by
  cases rfuel <;> rfl

/-- Claim C10: on a reader whose catalog holds a well-formed `/Pages`
tree, `NumPage` returns the leaf count, and `Page i` for `i < 1` or
`i > NumPage` returns the null `Value` (on which `IsNull` holds) — no
error and no panic. -/
theorem claim_C10_page_out_of_range (ks : List PTree) (rfuel lfuel : Nat) (i : Int)
    (hf : ptHeight (PTree.node ks) < lfuel)
    (hrange : i < 1 ∨ (leafCountList ks : Int) < i) :
    PageF (rmOfTree (PTree.node ks)) rfuel lfuel i = Except.ok nullVM ∧
    isNullV nullVM = true ∧
    NumPage (rmOfTree (PTree.node ks)) rfuel = Except.ok (leafCountList ks : Int) := by
  refine ⟨?_, rfl, ?_⟩
  · show (do
      let root ← keyF (rmOfTree (PTree.node ks)) rfuel (TrailerV (rmOfTree (PTree.node ks))) "Root"
      let pages ← keyF (rmOfTree (PTree.node ks)) rfuel root "Pages"
      pageLoop (rmOfTree (PTree.node ks)) rfuel lfuel pages (i - 1)) = Except.ok nullVM
    rw [rootV_tree, exceptBind_ok, pagesV_tree, exceptBind_ok]
    refine pageLoop_out_of_range _ rfuel lfuel (PTree.node ks) ⟨0, 0⟩ (i - 1) hf ?_
    have h1 : leafCount (PTree.node ks) = leafCountList ks := rfl
    rw [h1]
    omega
  · show (do
      let root ← keyF (rmOfTree (PTree.node ks)) rfuel (TrailerV (rmOfTree (PTree.node ks))) "Root"
      let pages ← keyF (rmOfTree (PTree.node ks)) rfuel root "Pages"
      let cV ← keyF (rmOfTree (PTree.node ks)) rfuel pages "Count"
      Except.ok (int64Acc cV)) = Except.ok ((leafCountList ks : Int))
    rw [rootV_tree, exceptBind_ok, pagesV_tree, exceptBind_ok, keyF_node_Count, exceptBind_ok]
    simp [int64Acc]

theorem claim_C10_page_out_of_range_witness :
    ptHeight (PTree.node [PTree.leaf, PTree.node [PTree.leaf]]) < 3 ∧
    ((leafCountList [PTree.leaf, PTree.node [PTree.leaf]] : Int)) < 5 ∧
    (PageF (rmOfTree (PTree.node [PTree.leaf, PTree.node [PTree.leaf]])) 0 3 5
        = Except.ok nullVM ∧
     isNullV nullVM = true ∧
     NumPage (rmOfTree (PTree.node [PTree.leaf, PTree.node [PTree.leaf]])) 0
        = Except.ok ((leafCountList [PTree.leaf, PTree.node [PTree.leaf]] : Int))) :=
  ⟨by decide, by decide,
   claim_C10_page_out_of_range [PTree.leaf, PTree.node [PTree.leaf]] 0 3 5
     (by decide) (Or.inr (by decide))⟩

lemma utf8Head_ne_FFFD (b : Nat) (rest : List Nat) (r k : Nat)
    (hb : b ≠ 0xEF) (h : utf8Head (b :: rest) = some (r, k)) : r ≠ 0xFFFD := by
  intro hr
  subst hr
  rcases rest with _ | ⟨b1, _ | ⟨b2, _ | ⟨b3, t3⟩⟩⟩ <;>
    simp only [utf8Head] at h <;>
    split_ifs at h <;>
    simp at h <;>
    omega

lemma decodeUTF8Aux_no_FFFD : ∀ (fuel : Nat) (l : List Nat),
    (∀ x ∈ l, x < 256) → (0xEF : Nat) ∉ l → (0xFFFD : Nat) ∉ decodeUTF8Aux fuel l := by
  intro fuel
  induction fuel with
  | zero => intro l _ _; simp [decodeUTF8Aux]
  | succ m ih =>
    intro l hlt hEF
    cases l with
    | nil => simp [decodeUTF8Aux]
    | cons b rest =>
      rw [decodeUTF8Aux]
      cases hh : utf8Head (b :: rest) with
      | none =>
        show (0xFFFD : Nat) ∉ b :: decodeUTF8Aux m rest
        intro hmem
        rcases List.mem_cons.mp hmem with heq | hmem2
        · have hb : b < 256 := hlt b (List.mem_cons_self _ _)
          omega
        · exact ih rest (fun x hx => hlt x (List.mem_cons_of_mem _ hx))
            (fun hx => hEF (List.mem_cons_of_mem _ hx)) hmem2
      | some p =>
        obtain ⟨r, k⟩ := p
        show (0xFFFD : Nat) ∉ r :: decodeUTF8Aux m ((b :: rest).drop k)
        intro hmem
        rcases List.mem_cons.mp hmem with heq | hmem2
        · exact utf8Head_ne_FFFD b rest r k
            (by intro hbe; exact hEF (by rw [hbe]; exact List.mem_cons_self _ _)) hh heq.symm
        · exact ih ((b :: rest).drop k)
            (fun x hx => hlt x (List.drop_subset _ _ hx))
            (fun hx => hEF (List.drop_subset _ _ hx)) hmem2

lemma decodeUTF8OrPreserve_ne_nil (b : Nat) (rest : List Nat) :
    DecodeUTF8OrPreserve (b :: rest) ≠ [] := by
  show decodeUTF8Aux (rest.length + 1) (b :: rest) ≠ []
  rw [decodeUTF8Aux]
  cases hh : utf8Head (b :: rest) with
  | none => exact List.cons_ne_nil _ _
  | some p =>
    obtain ⟨r, k⟩ := p
    exact List.cons_ne_nil _ _

lemma findNextCodespace_spec (m : Cmap) (raw : List Nat) :
    findNextCodespace m raw = ([], 0) ∨
    ∃ w, 1 ≤ w ∧ w ≤ raw.length ∧ findNextCodespace m raw = (raw.take w, w) := by
  unfold findNextCodespace
  split_ifs with h1 h2 h3 h4
  · exact Or.inr ⟨1, by omega, h1.1, rfl⟩
  · exact Or.inr ⟨2, by omega, h2.1, rfl⟩
  · exact Or.inr ⟨3, by omega, h3.1, rfl⟩
  · exact Or.inr ⟨4, by omega, h4.1, rfl⟩
  · exact Or.inl rfl

lemma cmapDecodeAux_cons (m : Cmap) (f b : Nat) (rest code2 : List Nat) (width : Nat)
    (h : findNextCodespace m (b :: rest) = (code2, width)) :
    cmapDecodeAux m (f + 1) (b :: rest) =
      (if width = 0 then do
        let tail ← cmapDecodeAux m f rest
        Except.ok (DecodeUTF8OrPreserve ((b :: rest).take 1) ++ tail)
      else do
        let res ← resolveCodeMapping m code2 width
        match res with
        | some rs => do
          let tail ← cmapDecodeAux m f ((b :: rest).drop width)
          Except.ok (rs ++ tail)
        | none => do
          let tail ← cmapDecodeAux m f ((b :: rest).drop width)
          Except.ok (DecodeUTF8OrPreserve code2 ++ tail)) := by
  rw [cmapDecodeAux, h]

lemma cmapDecodeAux_ok (m : Cmap)
    (hmap : ∀ code width, ∃ o, resolveCodeMapping m code width = Except.ok o ∧
      ∀ rs, o = some rs → rs ≠ [] ∧ (0xFFFD : Nat) ∉ rs) :
    ∀ (fuel : Nat) (s : List Nat), s.length ≤ fuel → (∀ x ∈ s, x < 256) →
    (0xEF : Nat) ∉ s →
    ∃ out, cmapDecodeAux m fuel s = Except.ok out ∧ (0xFFFD : Nat) ∉ out ∧
      (s ≠ [] → out ≠ []) := by
  intro fuel
  induction fuel with
  | zero =>
    intro s hlen _ _
    have hs : s = [] := List.eq_nil_of_length_eq_zero (by omega)
    subst hs
    exact ⟨[], rfl, by simp, by simp⟩
  | succ f ih =>
    intro s hlen hlt hEF
    cases s with
    | nil => exact ⟨[], rfl, by simp, by simp⟩
    | cons b rest =>
      rcases findNextCodespace_spec m (b :: rest) with h0 | ⟨w, hw1, hwlen, hw⟩
      · obtain ⟨tail, htail, htailF, _⟩ := ih rest
          (by simp only [List.length_cons] at hlen; omega)
          (fun x hx => hlt x (List.mem_cons_of_mem _ hx))
          (fun hx => hEF (List.mem_cons_of_mem _ hx))
        refine ⟨DecodeUTF8OrPreserve [b] ++ tail, ?_, ?_, ?_⟩
        · rw [cmapDecodeAux_cons m f b rest [] 0 h0, if_pos rfl, htail]
          rfl
        · intro hmem
          rcases List.mem_append.mp hmem with hmem1 | hmem2
          · refine decodeUTF8Aux_no_FFFD 1 [b] ?_ ?_ hmem1
            · intro x hx
              rw [List.mem_singleton] at hx
              rw [hx]
              exact hlt b (List.mem_cons_self _ _)
            · intro hc
              rw [List.mem_singleton] at hc
              exact hEF (by rw [← hc]; exact List.mem_cons_self _ _)
          · exact htailF hmem2
        · intro _ hc
          exact decodeUTF8OrPreserve_ne_nil b [] (List.append_eq_nil.mp hc).1
      · obtain ⟨o, ho, hoprop⟩ := hmap ((b :: rest).take w) w
        obtain ⟨tail, htail, htailF, _⟩ := ih ((b :: rest).drop w)
          (by rw [List.length_drop]; simp only [List.length_cons] at hlen ⊢; omega)
          (fun x hx => hlt x (List.drop_subset _ _ hx))
          (fun hx => hEF (List.drop_subset _ _ hx))
        have htk : (b :: rest).take w = b :: rest.take (w - 1) := by
          cases w with
          | zero => omega
          | succ w2 => simp [List.take_succ_cons]
        cases o with
        | some rs =>
          obtain ⟨hrs_ne, hrs_f⟩ := hoprop rs rfl
          refine ⟨rs ++ tail, ?_, ?_, ?_⟩
          · rw [cmapDecodeAux_cons m f b rest _ w hw, if_neg (by omega : ¬ w = 0), ho, htail]
            rfl
          · intro hmem
            rcases List.mem_append.mp hmem with hmem1 | hmem2
            · exact hrs_f hmem1
            · exact htailF hmem2
          · intro _ hc
            exact hrs_ne (List.append_eq_nil.mp hc).1
        | none =>
          refine ⟨DecodeUTF8OrPreserve ((b :: rest).take w) ++ tail, ?_, ?_, ?_⟩
          · rw [cmapDecodeAux_cons m f b rest _ w hw, if_neg (by omega : ¬ w = 0), ho, htail]
            rfl
          · intro hmem
            rcases List.mem_append.mp hmem with hmem1 | hmem2
            · exact decodeUTF8Aux_no_FFFD ((b :: rest).take w).length ((b :: rest).take w)
                (fun x hx => hlt x (List.take_subset _ _ hx))
                (fun hx => hEF (List.take_subset _ _ hx)) hmem1
            · exact htailF hmem2
          · intro _ hc
            have hnil := (List.append_eq_nil.mp hc).1
            rw [htk] at hnil
            exact decodeUTF8OrPreserve_ne_nil b (rest.take (w - 1)) hnil

/-- Claim C6, amended.  `cmap.Decode` on a non-empty input emits at
least one rune and no U+FFFD, provided (i) every successful
`resolveCodeMapping` result on this cmap is a non-empty replacement
free of U+FFFD (false e.g. for a bfchar with an empty replacement,
which yields zero runes — see the counterexample), (ii) every input
byte is below 256, and (iii) no input byte is 0xEF (which rules out
in-codespace unmapped codes whose raw bytes are the UTF-8 encoding
EF BF BD of U+FFFD itself, preserved by decoding them). -/
theorem claim_C6_decode_output (m : Cmap) (s : List Nat)
    (hmap : ∀ code width, ∃ o, resolveCodeMapping m code width = Except.ok o ∧
      ∀ rs, o = some rs → rs ≠ [] ∧ (0xFFFD : Nat) ∉ rs)
    (hbytes : ∀ x ∈ s, x < 256) (hEF : (0xEF : Nat) ∉ s) (hne : s ≠ []) :
    ∃ out, cmapDecode m s = Except.ok out ∧ out ≠ [] ∧ (0xFFFD : Nat) ∉ out := by
  obtain ⟨out, h1, h2, h3⟩ := cmapDecodeAux_ok m hmap s.length s le_rfl hbytes hEF
  exact ⟨out, h1, h3 hne, h2⟩

/-- A cmap with the single-byte codespace range 01..01 and no
mappings at all. -/
def c6w : Cmap := ⟨[[⟨[1], [1]⟩]], [], []⟩

theorem claim_C6_decode_output_witness :
    (∀ x ∈ ([1, 2] : List Nat), x < 256) ∧ (0xEF : Nat) ∉ ([1, 2] : List Nat) ∧
    ([1, 2] : List Nat) ≠ [] ∧
    ∃ out, cmapDecode c6w [1, 2] = Except.ok out ∧ out ≠ [] ∧ (0xFFFD : Nat) ∉ out :=
  ⟨by decide, by decide, by decide,
   claim_C6_decode_output c6w [1, 2]
     (fun code width => ⟨none, rfl, fun rs h => nomatch h⟩)
     (by decide) (by decide) (by decide)⟩

/-- A cmap with the single-byte codespace range 01..01 and a bfchar
mapping code 01 to the empty replacement string. -/
def c6m : Cmap := ⟨[[⟨[1], [1]⟩]], [⟨[1], []⟩], []⟩

/-- On the one-byte input 01, which sits in `c6m`'s codespace and is
mapped by its bfchar to the empty string, `Decode` succeeds with ZERO
output runes — refuting the claim that every non-empty input yields at
least one rune. -/
theorem claim_C6_counterexample :
    cmapDecode c6m [1] = Except.ok ([] : List Nat) := by rfl
